import Mathlib

/-!
# kube-monkey: MTBF parsing, kill-time sampling and schedule construction

A shallow embedding of `internal/pkg/calendar/calendar.go` and
`internal/pkg/schedule/schedule.go`.

Conventions of the embedding.

* Go strings are lists of characters (valid UTF-8 text); the byte tests the
  code performs (`== 'd'`, digits, `.`, `+`, `-`) are ASCII tests, so they
  agree with the character tests used here.
* `int`, `int64` and `time.Duration` are integers; every operation that can
  leave the 64-bit range is wrapped explicitly with `wrap64`.
* `float64` is modelled exactly: a value is a sign, a mantissa and a binary
  exponent, and every operation rounds to the nearest representable value,
  ties to even (`F64.round`).
* A function that can fault or loop forever returns an `Outcome`.
* The pseudo-random generator is a stream of draws (`Rand`): `Int63n(n)`
  reduces the next draw modulo `n` and `Float64()` returns the next draw as a
  53-bit fraction, so every value the library can return is covered; the
  clock reading `time.Now()` is a parameter.
* An instant is a count of nanoseconds since the Unix epoch together with a
  location of fixed UTC offset; a calendar date (year, month, day) is
  represented by its day number (`civil`).
-/

namespace KubeMonkey

/-! ## Outcomes of possibly faulting code -/

/-- Result of running a piece of Go code: a returned value, a run-time
fault (`panic`, `glog.Fatalf`), or exhaustion of the iteration budget given
to an unbounded loop. -/
inductive Outcome (α : Type) where
  | ret (a : α) : Outcome α
  | fault : Outcome α
  | timeout : Outcome α
deriving DecidableEq, Repr

deriving instance DecidableEq for Except

/-- Sequencing of outcomes. -/
def Outcome.bind {α β : Type} (x : Outcome α) (f : α → Outcome β) : Outcome β :=
  match x with
  | .ret a => f a
  | .fault => .fault
  | .timeout => .timeout

/-- Image of a returned value. -/
def Outcome.map {α β : Type} (f : α → β) (x : Outcome α) : Outcome β :=
  match x with
  | .ret a => .ret (f a)
  | .fault => .fault
  | .timeout => .timeout

/-! ## Machine integers -/

/-- Largest `int64`. -/
def maxInt64 : Int := 2 ^ 63 - 1

/-- Smallest `int64`. -/
def minInt64 : Int := -(2 ^ 63)

/-- Two's complement wrap-around of an integer result to 64 bits. -/
def wrap64 (x : Int) : Int := (x + 2 ^ 63) % 2 ^ 64 - 2 ^ 63

/-! ## Durations (`time.Duration`, nanoseconds) -/

/-! A `time.Duration` is a signed 64-bit count of nanoseconds, an `Int` here. -/

def Nanosecond : Int := 1
def Microsecond : Int := 1000
def Millisecond : Int := 1000000
def Second : Int := 1000000000
def Minute : Int := 60000000000
def Hour : Int := 3600000000000

/-! ## IEEE-754 binary64 arithmetic -/

/-- A `float64` value: a finite number `(-1)^neg * m * 2^e`, an infinity or
a NaN. -/
inductive F64 where
  | fin (neg : Bool) (m : Nat) (e : Int) : F64
  | inf (neg : Bool) : F64
  | nan : F64
deriving DecidableEq, Repr

/-- Round `n / d` to the nearest integer, ties to even. -/
def roundNearestEven (n d : Nat) : Nat :=
  let q := n / d
  let r := n % d
  if 2 * r < d then q else if d < 2 * r then q + 1 else if q % 2 = 0 then q else q + 1

/-- Position of the highest set bit, by repeated halving. -/
def log2Fuel : Nat → Nat → Nat
  | 0, _ => 0
  | fuel + 1, n => if n < 2 then 0 else log2Fuel fuel (n / 2) + 1

/-- The number `floor (log2 n)` for positive `n`. -/
def ilog2 (n : Nat) : Nat := log2Fuel n n

/-- The number `floor (log2 (n / d))` for positive `n` and `d`. -/
def floorLog2 (n d : Nat) : Int :=
  let l : Int := (ilog2 n : Int) - (ilog2 d : Int)
  if 0 ≤ l then (if d * 2 ^ l.toNat ≤ n then l else l - 1)
  else (if d ≤ n * 2 ^ (-l).toNat then l else l - 1)

/-- The binary64 value nearest to `± n / d` (`0 < d`): 53 significant bits,
smallest quantum `2^-1074`, overflow to infinity from `2^1024`. -/
def F64.round (neg : Bool) (n d : Nat) : F64 :=
  if n = 0 then .fin neg 0 0
  else
    let e : Int := max (floorLog2 n d - 52) (-1074)
    let m : Nat :=
      if 0 ≤ e then roundNearestEven n (d * 2 ^ e.toNat)
      else roundNearestEven (n * 2 ^ (-e).toNat) d
    if 971 < e ∨ (e = 971 ∧ 2 ^ 53 ≤ m) then .inf neg else .fin neg m e

/-- The binary64 value nearest to `± (n / d) * 2^e`. -/
def F64.roundScaled (neg : Bool) (n d : Nat) (e : Int) : F64 :=
  if 0 ≤ e then F64.round neg (n * 2 ^ e.toNat) d else F64.round neg n (d * 2 ^ (-e).toNat)

/-- Conversion `float64(x)` of an integer. -/
def F64.ofInt (x : Int) : F64 := F64.round (decide (x < 0)) x.natAbs 1

/-- Product of two `float64` values. -/
def F64.mul : F64 → F64 → F64
  | .fin s m e, .fin s' m' e' => F64.roundScaled (xor s s') (m * m') 1 (e + e')
  | .fin s m _, .inf s' => if m = 0 then .nan else .inf (xor s s')
  | .inf s, .fin s' m' _ => if m' = 0 then .nan else .inf (xor s s')
  | .inf s, .inf s' => .inf (xor s s')
  | _, _ => .nan

/-- Quotient of two `float64` values. -/
def F64.div : F64 → F64 → F64
  | .fin s m e, .fin s' m' e' =>
    if m' = 0 then (if m = 0 then .nan else .inf (xor s s'))
    else F64.roundScaled (xor s s') m m' (e - e')
  | .fin s _ _, .inf s' => .fin (xor s s') 0 0
  | .inf s, .fin s' _ _ => .inf (xor s s')
  | _, _ => .nan

/-- Signed mantissa of a finite value rescaled to the exponent `e0 ≤ e`. -/
def F64.scaledMantissa (neg : Bool) (m : Nat) (e e0 : Int) : Int :=
  (if neg then -(m : Int) else (m : Int)) * 2 ^ (e - e0).toNat

/-- The comparison `a < b` of two `float64` values (false on NaN). -/
def F64.lt : F64 → F64 → Bool
  | .fin s m e, .fin s' m' e' =>
    decide (F64.scaledMantissa s m e (min e e') < F64.scaledMantissa s' m' e' (min e e'))
  | .fin _ _ _, .inf s' => !s'
  | .inf s, .fin _ _ _ => s
  | .inf s, .inf s' => s && !s'
  | _, _ => false

/-- The comparison `a > b` of two `float64` values. -/
def F64.gt (a b : F64) : Bool := F64.lt b a

/-- Conversion `uint64(x)` of a non-negative finite value below `2^64`:
the integer part. -/
def F64.toUint64 : F64 → Nat
  | .fin _ m e => if 0 ≤ e then m * 2 ^ e.toNat else m / 2 ^ (-e).toNat
  | _ => 0

/-! ## Strings and the standard-library parsers used by `ParseMtbf` -/

/-- A Go string. -/
abbrev GoString := List Char

/-- The call `strings.TrimRight(s, "d")` for a one-character cutset: all
trailing occurrences of the character are removed. -/
def TrimRight (s : GoString) (c : Char) : GoString :=
  (s.reverse.dropWhile (fun x => x == c)).reverse

/-- Value of a run of decimal digits, most significant first. -/
def decimalValue (s : GoString) : Nat :=
  s.foldl (fun acc c => acc * 10 + (c.toNat - 48)) 0

/-- The call `strconv.Atoi(s)` on a 64-bit platform: an optional sign followed
by at least one decimal digit and nothing else, the value lying in the
`int64` range; `none` stands for a non-nil error. -/
def Atoi (s : GoString) : Option Int :=
  let neg : Bool := s.head? == some '-'
  let digits : GoString := if s.head? == some '-' ∨ s.head? == some '+' then s.tail else s
  if digits = [] then none
  else if digits.all Char.isDigit then
    let un := decimalValue digits
    if neg then (if 2 ^ 63 < un then none else some (-(un : Int)))
    else (if 2 ^ 63 ≤ un then none else some (un : Int))
  else none

/-- The verb `%d` of `fmt.Sprintf` on an `int`. -/
def formatInt (v : Int) : GoString :=
  if v < 0 then '-' :: Nat.toDigits 10 v.natAbs else Nat.toDigits 10 v.toNat

/-- The function `leadingInt` of package `time`: consumes leading digits,
failing when the value exceeds `2^63`.  The second argument is the value
accumulated so far. -/
def leadingInt : GoString → Nat → Option (Nat × GoString)
  | [], x => some (x, [])
  | c :: s, x =>
    if c < '0' ∨ '9' < c then some (x, c :: s)
    else if 2 ^ 63 / 10 < x then none
    else if 2 ^ 63 < x * 10 + (c.toNat - 48) then none
    else leadingInt s (x * 10 + (c.toNat - 48))

/-- The function `leadingFraction` of package `time`: consumes leading digits
and accumulates them, together with the power of ten `scale`, until the
value would overflow; it never fails. -/
def leadingFraction : GoString → Nat → F64 → Bool → Nat × F64 × GoString
  | [], x, scale, _ => (x, scale, [])
  | c :: s, x, scale, overflow =>
    if c < '0' ∨ '9' < c then (x, scale, c :: s)
    else if overflow then leadingFraction s x scale true
    else if (2 ^ 63 - 1) / 10 < x then leadingFraction s x scale true
    else if 2 ^ 63 < x * 10 + (c.toNat - 48) then leadingFraction s x scale true
    else leadingFraction s (x * 10 + (c.toNat - 48)) (F64.mul scale (F64.ofInt 10)) false

/-- The table `unitMap` of package `time`, in nanoseconds. -/
def unitMap (u : GoString) : Option Nat :=
  if u = ['n', 's'] then some 1
  else if u = ['u', 's'] then some 1000
  else if u = [Char.ofNat 0xB5, 's'] then some 1000
  else if u = [Char.ofNat 0x3BC, 's'] then some 1000
  else if u = ['m', 's'] then some 1000000
  else if u = ['s'] then some 1000000000
  else if u = ['m'] then some 60000000000
  else if u = ['h'] then some 3600000000000
  else none

/-- Whether a character belongs to a unit name: it is neither a digit nor
a period. -/
def isUnitChar (c : Char) : Bool := !(c == '.' || ('0' ≤ c && c ≤ '9'))

/-- The optional fraction of a group in `time.ParseDuration`: after a period,
the digits `f`, their `scale`, the unread input and whether a digit was
consumed; without a period, nothing is consumed. -/
def fractionPart (s1 : GoString) : Nat × F64 × GoString × Bool :=
  match s1 with
  | '.' :: s2 =>
    let r := leadingFraction s2 0 (F64.ofInt 1) false
    (r.1, r.2.1, r.2.2, s2.length != r.2.2.length)
  | _ => (0, F64.ofInt 1, s1, false)

/-- One iteration of the loop of `time.ParseDuration`: a number with an
optional fraction, followed by a unit.  Returns the value in nanoseconds and
the unread input. -/
def parseGroup (s : GoString) : Option (Nat × GoString) :=
  match s with
  | [] => none
  | c :: _ =>
    if !(c == '.' || ('0' ≤ c && c ≤ '9')) then none
    else
      match leadingInt s 0 with
      | none => none
      | some (v, s1) =>
        let pre : Bool := s.length != s1.length
        let frac := fractionPart s1
        let f := frac.1
        let scale := frac.2.1
        let s3 := frac.2.2.1
        let post := frac.2.2.2
        if !pre && !post then none
        else
          let u := s3.takeWhile isUnitChar
          let s4 := s3.dropWhile isUnitChar
          if u = [] then none
          else
            match unitMap u with
            | none => none
            | some unit =>
              if 2 ^ 63 / unit < v then none
              else
                let v1 := v * unit
                let v2 :=
                  if 0 < f then
                    (v1 + F64.toUint64 (F64.mul (F64.ofInt f) (F64.div (F64.ofInt unit) scale)))
                      % 2 ^ 64
                  else v1
                if 0 < f ∧ 2 ^ 63 < v2 then none else some (v2, s4)

/-- The loop of `time.ParseDuration` over the groups of the input; `d` is the
total so far (a `uint64`).  Every group consumes at least one character, so
a budget equal to the length of the input is never exhausted. -/
def parseGroups : Nat → GoString → Nat → Option Nat
  | _, [], d => some d
  | 0, _ :: _, _ => none
  | fuel + 1, c :: s, d =>
    match parseGroup (c :: s) with
    | none => none
    | some (v, rest) =>
      if 2 ^ 63 < (d + v) % 2 ^ 64 then none else parseGroups fuel rest ((d + v) % 2 ^ 64)

/-- The call `time.ParseDuration(s)`; `none` stands for a non-nil error. -/
def ParseDuration (s : GoString) : Option Int :=
  let neg : Bool := s.head? == some '-'
  let s1 : GoString := if s.head? == some '-' ∨ s.head? == some '+' then s.tail else s
  if s1 = ['0'] then some 0
  else if s1 = [] then none
  else
    match parseGroups s1.length s1 0 with
    | none => none
    | some d =>
      if neg then some (wrap64 (-(wrap64 (d : Int))))
      else if 2 ^ 63 - 1 < d then none
      else some (d : Int)

/-! ## `ParseMtbf` -/

/-- The two errors `ParseMtbf` returns. -/
inductive MtbfError where
  | invalidFormat : MtbfError
  | belowMinimum : MtbfError
deriving DecidableEq, Repr

/-- The rewriting `ParseMtbf` applies to a non-empty input before calling
`time.ParseDuration` (calendar.go, lines 62 to 71): when the last byte is
`d` all trailing `d` are trimmed, and when what remains is an integer it is
replaced by that integer times 24 (as an `int`), followed by `h`. -/
def normalizeMtbf (mtbf : GoString) (last : Char) : GoString :=
  let mtbf1 := if last = 'd' then TrimRight mtbf 'd' else mtbf
  match Atoi mtbf1 with
  | some converted_mtbf => formatInt (wrap64 (converted_mtbf * 24)) ++ ['h']
  | none => mtbf1

/-- The value `one_minute, _ := time.ParseDuration("1m")`. -/
def one_minute : Int := (ParseDuration "1m".toList).getD 0

/-- The value `one_day, _ := time.ParseDuration("24h")`. -/
def one_day : Int := (ParseDuration "24h".toList).getD 0

/-- The function `ParseMtbf` (calendar.go, lines 57 to 81).  Indexing the
last byte of an empty string is a run-time fault. -/
def ParseMtbf (mtbf : GoString) : Outcome (Except MtbfError Int) :=
  match mtbf.getLast? with
  | none => .fault
  | some last =>
    match ParseDuration (normalizeMtbf mtbf last) with
    | none => .ret (.error .invalidFormat)
    | some duration =>
      if duration < one_minute then .ret (.error .belowMinimum) else .ret (.ok duration)

/-- The ten decimal digit characters. -/
def digitChars : List Char := ['0', '1', '2', '3', '4', '5', '6', '7', '8', '9']

/-! ## Instants (`time.Time`) -/

/-- A `*time.Location` with a fixed offset from UTC, in seconds east. -/
structure Location where
  offset : Int
deriving DecidableEq, Repr

/-- The location `time.UTC`. -/
def UTC : Location := ⟨0⟩

/-- A `time.Time` without monotonic reading: nanoseconds since the Unix epoch
and the location used for presentation. -/
structure Time where
  unixNano : Int
  loc : Location
deriving DecidableEq, Repr

/-! A calendar date (year, month, day) is identified with its number of days
since 1 January 1970, an `Int` here. -/

/-- Day number of the proleptic Gregorian date `year`-`month`-`day`: the
number of days from 1 January 1970 to it. -/
def civil (year month day : Int) : Int :=
  let y := if month ≤ 2 then year - 1 else year
  let era := y / 400
  let yoe := y - era * 400
  let doy := (153 * ((month + 9) % 12) + 2) / 5 + day - 1
  era * 146097 + (yoe * 365 + yoe / 4 - yoe / 100 + doy) - 719468

/-- The method `t.In(loc)`. -/
def Time.In (t : Time) (loc : Location) : Time := ⟨t.unixNano, loc⟩

/-- The method `t.Add(d)`. -/
def Time.Add (t : Time) (d : Int) : Time := ⟨t.unixNano + d, t.loc⟩

/-- The method `t.Sub(u)`: the difference, saturated to the range of a
`time.Duration`. -/
def Time.Sub (t u : Time) : Int :=
  if t.unixNano - u.unixNano < minInt64 then minInt64
  else if maxInt64 < t.unixNano - u.unixNano then maxInt64
  else t.unixNano - u.unixNano

/-- The method `t.Before(u)`. -/
def Time.Before (t u : Time) : Bool := decide (t.unixNano < u.unixNano)

/-- The method `t.After(u)`. -/
def Time.After (t u : Time) : Bool := decide (u.unixNano < t.unixNano)

/-- Seconds elapsed on the local clock of `t` since 1 January 1970, 00:00. -/
def Time.localSeconds (t : Time) : Int := t.unixNano / 1000000000 + t.loc.offset

/-- The method `t.Date()` (and `t.Year()`, `t.Month()`, `t.Day()`). -/
def Time.Date (t : Time) : Int := t.localSeconds / 86400

/-- The method `t.Clock()`: hour, minute and second of the wall clock. -/
def Time.Clock (t : Time) : Int × Int × Int :=
  (t.localSeconds % 86400 / 3600, t.localSeconds % 3600 / 60, t.localSeconds % 60)

/-- The method `t.Nanosecond()`. -/
def Time.Nanosecond (t : Time) : Int := t.unixNano % 1000000000

/-- The method `t.Weekday()`, Sunday being 0; 1 January 1970 was a
Thursday. -/
def Time.Weekday (t : Time) : Nat := ((t.Date + 4) % 7).toNat

/-- The function `time.Date(year, month, day, hour, min, sec, nsec, loc)`;
values outside their usual range are carried over. -/
def Date (date : Int) (hour min sec nsec : Int) (loc : Location) : Time :=
  ⟨(date * 86400 + hour * 3600 + min * 60 + sec - loc.offset) * 1000000000 + nsec, loc⟩

/-- The method `t.AddDate(0, 0, days)`: the same wall-clock reading `days`
calendar days later. -/
def Time.AddDate (t : Time) (days : Int) : Time :=
  KubeMonkey.Date (t.Date + days) (t.localSeconds % 86400 / 3600) (t.localSeconds % 3600 / 60)
    (t.localSeconds % 60) (t.unixNano % 1000000000) t.loc

/-! ## The pseudo-random generator (`*rand.Rand`) -/

/-- A `*rand.Rand`: the stream of the draws it is going to produce. -/
structure Rand where
  draws : Nat → Nat

/-- The generator after one draw. -/
def Rand.next (r : Rand) : Rand := ⟨fun i => r.draws (i + 1)⟩

/-- The method `r.Int63n(n)`: a fault unless `0 < n`, otherwise a value in
`[0, n)` and the advanced generator. -/
def Int63n (r : Rand) (n : Int) : Outcome (Int × Rand) :=
  if n ≤ 0 then .fault else .ret ((r.draws 0 : Int) % n, r.next)

/-- The method `r.Intn(n)`. -/
def Intn (r : Rand) (n : Int) : Outcome (Int × Rand) :=
  if n ≤ 0 then .fault else .ret ((r.draws 0 : Int) % n, r.next)

/-- The method `r.Float64()`: a multiple of `2^-53` in `[0, 1)` and the
advanced generator. -/
def Float64 (r : Rand) : F64 × Rand := (.fin false (r.draws 0 % 2 ^ 53) (-53), r.next)

/-! ## Weekdays and the next run time -/

/-- The function `isWeekday` (calendar.go, lines 15 to 26); the call of
`glog.Fatalf` is a fault. -/
def isWeekday (t : Time) : Outcome Bool :=
  match t.Weekday with
  | 1 | 2 | 3 | 4 | 5 => .ret true
  | 6 | 0 => .ret false
  | _ => .fault

/-- The loop of `nextWeekday` with an iteration budget. -/
def nextWeekdayLoop : Nat → Time → Outcome Time
  | 0, _ => .timeout
  | fuel + 1, check =>
    (isWeekday (check.AddDate 1)).bind (fun weekday =>
      if weekday then .ret (check.AddDate 1) else nextWeekdayLoop fuel (check.AddDate 1))

/-- The function `nextWeekday` (calendar.go, lines 29 to 37); `now` is the
reading of `time.Now()`. -/
def nextWeekday (loc : Location) (now : Time) (fuel : Nat) : Outcome Time :=
  nextWeekdayLoop fuel (now.In loc)

/-- The function `NextRuntime` (calendar.go, lines 40 to 54); `now` is its own
reading of `time.Now()` and `now2` the later reading made by `nextWeekday`. -/
def NextRuntime (loc : Location) (r : Int) (now now2 : Time) (fuel : Nat) : Outcome Time :=
  match isWeekday (now.In loc) with
  | .ret weekday =>
    if weekday && (Date (now.In loc).Date r 0 0 0 loc).After (now.In loc) then
      .ret (Date (now.In loc).Date r 0 0 0 loc)
    else
      match nextWeekday loc now2 fuel with
      | .ret next => .ret (Date next.Date r 0 0 0 loc)
      | .fault => .fault
      | .timeout => .timeout
  | .fault => .fault
  | .timeout => .timeout

/-! ## Random kill times -/

/-- The function `RandomOffsetTime` (calendar.go, lines 84 to 91). -/
def RandomOffsetTime (r : Rand) (startTime : Time) (timeWindow : Int) :
    Outcome (Time × Rand) :=
  match Int63n r (Int.tdiv timeWindow Second) with
  | .ret (randSecondOffset, r1) => .ret (startTime.Add (wrap64 (randSecondOffset * Second)), r1)
  | .fault => .fault
  | .timeout => .timeout

/-- The loop of `RandomTimeInRange` (calendar.go, lines 132 to 174) with an
iteration budget; the state is the generator, `startTime` and `times`. -/
def sampleLoop (timeDuration timeWindow : Int) (todayStartTime todayEndTime : Time) :
    Nat → Rand → Time → List Time → Outcome (List Time)
  | 0, _, _, _ => .timeout
  | fuel + 1, r, startTime, times =>
    if timeDuration < timeWindow then
      match RandomOffsetTime r startTime ((startTime.Add timeDuration).Sub startTime) with
      | .ret (randCalTime, r1) =>
        if randCalTime.Before todayEndTime then
          sampleLoop timeDuration timeWindow todayStartTime todayEndTime fuel r1 randCalTime
            (if startTime.After todayStartTime then times ++ [randCalTime] else times)
        else .ret times
      | .fault => .fault
      | .timeout => .timeout
    else
      if F64.gt (F64.div (F64.ofInt one_day) (F64.ofInt timeDuration)) (Float64 r).1 then
        match RandomOffsetTime (Float64 r).2 todayStartTime timeWindow with
        | .ret (randCalTime, _) => .ret (times ++ [randCalTime])
        | .fault => .fault
        | .timeout => .timeout
      else .ret times

/-- The function `RandomTimeInRange` (calendar.go, lines 94 to 177); `now` is
the reading of `time.Now()`, `r` the freshly seeded generator and `fuel` the
iteration budget of the loop. -/
def RandomTimeInRange (mtbf : GoString) (startHour endHour : Int) (loc : Location)
    (now : Time) (r : Rand) (fuel : Nat) : Outcome (List Time) :=
  match ParseMtbf mtbf with
  | .ret (.error _) => .ret [now.Add (wrap64 (wrap64 (24 * 365 * 10) * Hour))]
  | .ret (.ok tmptimeDuration) =>
    sampleLoop (wrap64 (tmptimeDuration * 2))
      ((Date (now.In loc).Date endHour 0 0 0 loc).Sub (Date (now.In loc).Date startHour 0 0 0 loc))
      (Date (now.In loc).Date startHour 0 0 0 loc) (Date (now.In loc).Date endHour 0 0 0 loc)
      fuel r (now.In loc) []
  | .fault => .fault
  | .timeout => .timeout

/-! ## The schedule -/

/-- A victim as seen through its accessors `Kind()`, `Namespace()`, `Name()`
and `Mtbf()`. -/
structure Victim where
  Kind : GoString
  Namespace : GoString
  Name : GoString
  Mtbf : GoString
deriving DecidableEq, Repr

/-- A `*chaos.Chaos` built by `chaos.New(killtime, victim)`. -/
structure Chaos where
  killAt : Time
  victim : Victim
deriving DecidableEq, Repr

/-- The type `Schedule` (schedule.go, lines 29 to 31). -/
structure Schedule where
  entries : List Chaos
deriving DecidableEq, Repr

/-- The method `Schedule.Add` (schedule.go, lines 37 to 39). -/
def Schedule.Add (s : Schedule) (entry : Chaos) : Schedule := ⟨s.entries ++ [entry]⟩

/-- The values read from package `config`. -/
structure Config where
  Timezone : Location
  StartHour : Int
  EndHour : Int
  DebugEnabled : Bool
  DebugScheduleImmediateKill : Bool
  DebugForceShouldKill : Bool
deriving DecidableEq, Repr

/-- What one iteration of the loop of `New` reads from its environment: the
clock, the generator seeded by `CalculateKillTimes` or `RandomTimeInRange`,
and the generator seeded by `ShouldScheduleChaos`. -/
structure Ambient where
  now : Time
  sampler : Rand
  gate : Rand

/-- The function `CalculateKillTimes` (schedule.go, lines 104 to 113). -/
def CalculateKillTimes (cfg : Config) (mtbf : GoString) (now : Time) (r : Rand) (fuel : Nat) :
    Outcome (List Time) :=
  if cfg.DebugEnabled && cfg.DebugScheduleImmediateKill then
    match Intn r 60 with
    | .ret (secOffset, _) => .ret [(now.In cfg.Timezone).Add (wrap64 (secOffset * Second))]
    | .fault => .fault
    | .timeout => .timeout
  else RandomTimeInRange mtbf cfg.StartHour cfg.EndHour cfg.Timezone now r fuel

/-- The function `ShouldScheduleChaos` (schedule.go, lines 115 to 123). -/
def ShouldScheduleChaos (cfg : Config) (mtbf : F64) (r : Rand) : Bool :=
  if cfg.DebugEnabled && cfg.DebugForceShouldKill then true
  else F64.gt (F64.div (F64.ofInt 1) mtbf) (Float64 r).1

/-- The inner loop of `New` (schedule.go, lines 95 to 97). -/
def addKillTimes (victim : Victim) : List Time → Schedule → Schedule
  | [], schedule => schedule
  | killtime :: killtimes, schedule =>
    addKillTimes victim killtimes (schedule.Add ⟨killtime, victim⟩)

/-- The loop of `New` over the victims (schedule.go, lines 83 to 99); `i` is
the number of victims already handled. -/
def buildLoop (cfg : Config) (amb : Nat → Ambient) (fuel : Nat) :
    List Victim → Nat → Schedule → Outcome Schedule
  | [], _, schedule => .ret schedule
  | victim :: victims, i, schedule =>
    match ParseMtbf victim.Mtbf with
    | .ret (.error _) => buildLoop cfg amb fuel victims (i + 1) schedule
    | .ret (.ok parsed_mtbf) =>
      match CalculateKillTimes cfg victim.Mtbf (amb i).now (amb i).sampler fuel with
      | .ret killtimes =>
        if parsed_mtbf < one_day
            || ShouldScheduleChaos cfg (F64.ofInt (Int.tdiv parsed_mtbf one_day)) (amb i).gate then
          buildLoop cfg amb fuel victims (i + 1) (addKillTimes victim killtimes schedule)
        else buildLoop cfg amb fuel victims (i + 1) schedule
      | .fault => .fault
      | .timeout => .timeout
    | .fault => .fault
    | .timeout => .timeout

/-- The error returned by `factory.EligibleVictims`. -/
structure DiscoveryError where
  message : GoString
deriving DecidableEq, Repr

/-- The function `New` (schedule.go, lines 72 to 102); `discovery` is the
result of `factory.EligibleVictims()`. -/
def New (cfg : Config) (discovery : Except DiscoveryError (List Victim)) (amb : Nat → Ambient)
    (fuel : Nat) : Outcome (Except DiscoveryError Schedule) :=
  match discovery with
  | .error err => .ret (.error err)
  | .ok victims =>
    match buildLoop cfg amb fuel victims 0 ⟨[]⟩ with
    | .ret schedule => .ret (.ok schedule)
    | .fault => .fault
    | .timeout => .timeout

/-- Whether `New`, run on the single victim `victim`, returns a schedule with
at least one entry. -/
def receivesEntry (cfg : Config) (victim : Victim) (amb : Ambient) (fuel : Nat) : Bool :=
  match New cfg (.ok [victim]) (fun _ => amb) fuel with
  | .ret (.ok schedule) => !schedule.entries.isEmpty
  | _ => false

/-- A generator whose first draw is `k` and whose later draws are `rest`. -/
def Rand.startingWith (k rest : Nat) : Rand := ⟨fun i => if i = 0 then k else rest⟩

/-- The entries one victim contributes to the schedule, as the specification
of the Schedule Builder words it: nothing when its MTBF is rejected; otherwise
its candidate kill instants, in generation order, when the MTBF is below one
day or the day-level trial succeeds, and nothing when the trial fails. -/
def victimEntries (cfg : Config) (victim : Victim) (amb : Ambient) (fuel : Nat) :
    Outcome (List Chaos) :=
  match ParseMtbf victim.Mtbf with
  | .ret (.error _) => .ret []
  | .ret (.ok parsed_mtbf) =>
    (CalculateKillTimes cfg victim.Mtbf amb.now amb.sampler fuel).map (fun killtimes =>
      if parsed_mtbf < one_day
          || ShouldScheduleChaos cfg (F64.ofInt (Int.tdiv parsed_mtbf one_day)) amb.gate then
        killtimes.map (fun killtime => ⟨killtime, victim⟩)
      else [])
  | .fault => .fault
  | .timeout => .timeout

/-! ## Rendering the schedule -/

/-- The call `fmt.Sprintf(format, args...)` for a format whose only verb is
`%s` and string operands: every `%s` is replaced by the next operand. -/
def Sprintf : GoString → List GoString → GoString
  | '%' :: 's' :: rest, arg :: args => arg ++ Sprintf rest args
  | '%' :: 's' :: rest, [] => "%!s(MISSING)".toList ++ Sprintf rest []
  | c :: rest, args => c :: Sprintf rest args
  | [], _ => []

/-- The call `strings.Join(elems, sep)`. -/
def Join (elems : List GoString) (sep : GoString) : GoString := sep.intercalate elems

/-- The constant `Today` (schedule.go, line 19). -/
def Today : GoString := "\t********** Today\x27s schedule **********".toList

/-- The constant `KubeMonkeyID` (schedule.go, line 20). -/
def KubeMonkeyID : GoString := "\tKubeMonkey ID: %s".toList

/-- The constant `NoTermination` (schedule.go, line 21). -/
def NoTermination : GoString := "\tNo terminations scheduled".toList

/-- The constant `HeaderRow` (schedule.go, line 22). -/
def HeaderRow : GoString :=
  "\tk8 Api Kind\tKind Namespace\tKind Name\t\tTermination Time".toList

/-- The constant `SepRow` (schedule.go, line 23). -/
def SepRow : GoString :=
  "\t-----------\t--------------\t---------\t\t----------------".toList

/-- The constant `RowFormat` (schedule.go, line 24). -/
def RowFormat : GoString := "\t%s\t%s\t%s\t\t%s".toList

/-- The constant `DateFormat` (schedule.go, line 25). -/
def DateFormat : GoString := "01/02/2006 15:04:05 -0700 MST".toList

/-- The constant `End` (schedule.go, line 26). -/
def End : GoString := "\t********** End of schedule **********".toList

/-- The loop of `Schedule.String` over the entries (schedule.go, lines 56 to
58); `format layout t` stands for `t.Format(layout)`. -/
def appendRows (format : GoString → Time → GoString) :
    List Chaos → List GoString → List GoString
  | [], schedString => schedString
  | chaos :: entries, schedString =>
    appendRows format entries
      (schedString ++ [Sprintf RowFormat [chaos.victim.Kind, chaos.victim.Namespace,
        chaos.victim.Name, format DateFormat chaos.killAt]])

/-- The slice `schedString` that `Schedule.String` joins (schedule.go, lines 42
to 60); `kubeMonkeyID` is the value of the environment variable
`KUBE_MONKEY_ID`. -/
def Schedule.lines (s : Schedule) (kubeMonkeyID : GoString)
    (format : GoString → Time → GoString) : List GoString :=
  let schedString1 : List GoString := [] ++ [Today]
  let schedString2 : List GoString :=
    if kubeMonkeyID ≠ [] then schedString1 ++ [Sprintf KubeMonkeyID [kubeMonkeyID]]
    else schedString1
  let schedString3 : List GoString :=
    if s.entries.length = 0 then schedString2 ++ [NoTermination]
    else appendRows format s.entries ((schedString2 ++ [HeaderRow]) ++ [SepRow])
  schedString3 ++ [End]

/-- The method `Schedule.String` (schedule.go, lines 41 to 63): the rendered
text, and the receiver as the call leaves it. -/
def Schedule.String (s : Schedule) (kubeMonkeyID : GoString)
    (format : GoString → Time → GoString) : GoString × Schedule :=
  (Join (s.lines kubeMonkeyID format) "\n".toList, s)

/-- The instants the Regime A loop draws one after the other, as the
specification words them: the `i`-th drawn instant is the previous one (the
start for the first) plus the drawn offset, a number of seconds below
`seconds`. -/
def drawnInstant (r : Rand) (seconds : Int) (start : Time) : Nat → Time
  | 0 => start
  | i + 1 =>
    drawnInstant r.next seconds
      ⟨start.unixNano + (r.draws 0 : Int) % seconds * Second, start.loc⟩ i

/-! # Theorems -/

/-! ## Constants -/

theorem one_minute_eq : one_minute = Minute := by decide

theorem one_day_eq : one_day = 24 * Hour := by decide

/-! ## Decimal numerals -/

theorem digitChar_mem (k : Nat) (hk : k < 10) : Nat.digitChar k ∈ digitChars := by
  interval_cases k <;> decide

theorem digitChar_value (k : Nat) (hk : k < 10) : (Nat.digitChar k).toNat - 48 = k := by
  interval_cases k <;> decide

theorem digitChars_facts : ∀ c ∈ digitChars,
    ¬ (c < '0' ∨ '9' < c) ∧ c.isDigit = true ∧ c ≠ 'd' ∧ c ≠ '-' ∧ c ≠ '+' ∧ c ≠ '.'
      ∧ isUnitChar c = false ∧ (c == '.' || (decide ('0' ≤ c) && decide (c ≤ '9'))) = true := by
  decide

theorem toDigitsCore_append (fuel : Nat) : ∀ (n : Nat) (acc : List Char),
    Nat.toDigitsCore 10 fuel n acc = Nat.toDigitsCore 10 fuel n [] ++ acc := by
  induction fuel with
  | zero => intro n acc; simp [Nat.toDigitsCore]
  | succ f ih =>
    intro n acc
    simp only [Nat.toDigitsCore]
    split
    · simp
    · rw [ih (n / 10) (Nat.digitChar (n % 10) :: acc), ih (n / 10) [Nat.digitChar (n % 10)]]
      simp

theorem toDigitsCore_fuel (fuel : Nat) : ∀ (n fuel' : Nat), n < fuel → n < fuel' →
    Nat.toDigitsCore 10 fuel n [] = Nat.toDigitsCore 10 fuel' n [] := by
  induction fuel with
  | zero => intro n fuel' h; omega
  | succ f ih =>
    intro n fuel' h h'
    obtain ⟨f', rfl⟩ : ∃ f', fuel' = f' + 1 := ⟨fuel' - 1, by omega⟩
    simp only [Nat.toDigitsCore]
    split
    · rfl
    · rename_i hne
      rw [toDigitsCore_append f, toDigitsCore_append f']
      rw [ih (n / 10) f' (by omega) (by omega)]

theorem toDigits_step (n : Nat) :
    Nat.toDigits 10 n =
      if n / 10 = 0 then [Nat.digitChar (n % 10)]
      else Nat.toDigits 10 (n / 10) ++ [Nat.digitChar (n % 10)] := by
  unfold Nat.toDigits
  rw [Nat.toDigitsCore]
  split
  · rfl
  · rename_i hne
    rw [toDigitsCore_append n]
    rw [toDigitsCore_fuel n (n / 10) (n / 10 + 1) (by omega) (by omega)]

theorem toDigits_spec (n : Nat) :
    Nat.toDigits 10 n ≠ [] ∧ (∀ c ∈ Nat.toDigits 10 n, c ∈ digitChars)
      ∧ decimalValue (Nat.toDigits 10 n) = n := by
  induction n using Nat.strong_induction_on with
  | _ n ih =>
    rw [toDigits_step]
    split
    · rename_i h0
      refine ⟨by simp, ?_, ?_⟩
      · intro c hc
        simp only [List.mem_singleton] at hc
        subst hc
        exact digitChar_mem _ (Nat.mod_lt _ (by decide))
      · simp only [decimalValue, List.foldl_cons, List.foldl_nil]
        rw [digitChar_value _ (Nat.mod_lt _ (by decide))]
        omega
    · rename_i hne
      obtain ⟨_, hmem, hval⟩ := ih (n / 10) (by omega)
      refine ⟨by simp, ?_, ?_⟩
      · intro c hc
        rcases List.mem_append.mp hc with h | h
        · exact hmem c h
        · simp only [List.mem_singleton] at h
          subst h
          exact digitChar_mem _ (Nat.mod_lt _ (by decide))
      · unfold decimalValue at hval ⊢
        rw [List.foldl_append, hval]
        simp only [List.foldl_cons, List.foldl_nil]
        rw [digitChar_value _ (Nat.mod_lt _ (by decide))]
        omega

theorem decimalValue_foldl_ge (ds : List Char) : ∀ x : Nat,
    x ≤ ds.foldl (fun acc c => acc * 10 + (c.toNat - 48)) x := by
  induction ds with
  | nil => intro x; simp
  | cons c t ih =>
    intro x
    simp only [List.foldl_cons]
    have := ih (x * 10 + (c.toNat - 48))
    omega

theorem leadingInt_digits (ds : List Char) (hds : ∀ c ∈ ds, c ∈ digitChars) (rest : GoString) :
    ∀ x : Nat, ds.foldl (fun acc c => acc * 10 + (c.toNat - 48)) x ≤ 2 ^ 63 →
      leadingInt (ds ++ rest) x
        = leadingInt rest (ds.foldl (fun acc c => acc * 10 + (c.toNat - 48)) x) := by
  induction ds with
  | nil => intro x _; simp
  | cons c t ih =>
    intro x hx
    have hc := (digitChars_facts c (hds c (List.mem_cons_self _ _))).1
    have ht : ∀ c ∈ t, c ∈ digitChars := fun c h => hds c (List.mem_cons_of_mem _ h)
    simp only [List.foldl_cons] at hx
    have hge := decimalValue_foldl_ge t (x * 10 + (c.toNat - 48))
    simp only [List.cons_append, leadingInt, List.foldl_cons]
    rw [if_neg hc, if_neg (by omega), if_neg (by omega)]
    exact ih ht _ hx

theorem leadingInt_toDigits (n : Nat) (hn : n ≤ 2 ^ 63) (c : Char) (hc : c < '0' ∨ '9' < c) :
    leadingInt (Nat.toDigits 10 n ++ [c]) 0 = some (n, [c]) := by
  obtain ⟨_, hmem, hval⟩ := toDigits_spec n
  unfold decimalValue at hval
  rw [leadingInt_digits _ hmem [c] 0 (by rw [hval]; exact hn), hval]
  simp [leadingInt, hc]

theorem Atoi_toDigits (n : Nat) (hn : n < 2 ^ 63) : Atoi (Nat.toDigits 10 n) = some (n : Int) := by
  obtain ⟨hne, hmem, hval⟩ := toDigits_spec n
  obtain ⟨c, t, hct⟩ := List.exists_cons_of_ne_nil hne
  have hc := digitChars_facts c (hmem c (by rw [hct]; exact List.mem_cons_self _ _))
  have hall : (Nat.toDigits 10 n).all Char.isDigit = true := by
    rw [List.all_eq_true]
    intro x hx
    exact (digitChars_facts x (hmem x hx)).2.1
  unfold Atoi
  have h1 : ((Nat.toDigits 10 n).head? == some '-') = false := by
    rw [hct]; simp [hc.2.2.2.1]
  have h2 : ((Nat.toDigits 10 n).head? == some '+') = false := by
    rw [hct]; simp [hc.2.2.2.2.1]
  simp only [h1, h2, hall]
  simp [hne, hval]
  exact ⟨fun x hx => (digitChars_facts x (hmem x hx)).2.1, by omega⟩

theorem Atoi_with_unit (n : Nat) (c : Char) (hc : c.isDigit = false) :
    Atoi (Nat.toDigits 10 n ++ [c]) = none := by
  obtain ⟨hne, hmem, _⟩ := toDigits_spec n
  obtain ⟨c0, t, hct⟩ := List.exists_cons_of_ne_nil hne
  have hc0 := digitChars_facts c0 (hmem c0 (by rw [hct]; exact List.mem_cons_self _ _))
  unfold Atoi
  have h1 : ((Nat.toDigits 10 n ++ [c]).head? == some '-') = false := by
    rw [hct]; simp [hc0.2.2.2.1]
  have h2 : ((Nat.toDigits 10 n ++ [c]).head? == some '+') = false := by
    rw [hct]; simp [hc0.2.2.2.2.1]
  simp only [h1, h2]
  simp [hc]

theorem TrimRight_toDigits_d (n : Nat) :
    TrimRight (Nat.toDigits 10 n ++ ['d']) 'd' = Nat.toDigits 10 n := by
  obtain ⟨hne, hmem, _⟩ := toDigits_spec n
  unfold TrimRight
  have hrev : (Nat.toDigits 10 n).reverse ≠ [] := by simpa using hne
  obtain ⟨c, t, hct⟩ := List.exists_cons_of_ne_nil hrev
  have hcm : c ∈ Nat.toDigits 10 n := by
    rw [← List.mem_reverse, hct]; exact List.mem_cons_self _ _
  have hc := digitChars_facts c (hmem c hcm)
  rw [List.reverse_append, hct]
  simp only [List.reverse_cons, List.reverse_nil, List.nil_append, List.singleton_append,
    List.dropWhile_cons, beq_self_eq_true, if_true]
  have : (c == 'd') = false := by simpa using hc.2.2.1
  simp only [this]
  simp only [Bool.false_eq_true, if_false]
  rw [← hct, List.reverse_reverse]

theorem getLast_toDigits (n : Nat) :
    ∃ c, (Nat.toDigits 10 n).getLast? = some c ∧ c ∈ digitChars := by
  obtain ⟨hne, hmem, _⟩ := toDigits_spec n
  refine ⟨(Nat.toDigits 10 n).getLast hne, List.getLast?_eq_getLast _ hne, ?_⟩
  exact hmem _ (List.getLast_mem hne)

theorem parseGroup_toDigits_unit (m : Nat) (c : Char) (unit : Nat)
    (hc1 : c < '0' ∨ '9' < c) (hc2 : c ≠ '.') (hmap : unitMap [c] = some unit)
    (hpos : 0 < unit) (hfit : m * unit ≤ 2 ^ 63 - 1) :
    parseGroup (Nat.toDigits 10 m ++ [c]) = some (m * unit, []) := by
  obtain ⟨hne, hmem, _⟩ := toDigits_spec m
  obtain ⟨c0, t, hct⟩ := List.exists_cons_of_ne_nil hne
  have hc0 := digitChars_facts c0 (hmem c0 (by rw [hct]; exact List.mem_cons_self _ _))
  have hm : m ≤ 2 ^ 63 := by
    have : m * 1 ≤ m * unit := Nat.mul_le_mul_left m hpos
    omega
  have hli := leadingInt_toDigits m hm c hc1
  have hdiv : ¬ (2 ^ 63 / unit < m) := by
    have : m ≤ 2 ^ 63 / unit := (Nat.le_div_iff_mul_le hpos).mpr (by omega)
    omega
  have hunit : isUnitChar c = true := by
    have h1 : (c == '.') = false := by simpa using hc2
    have h2 : (decide ('0' ≤ c) && decide (c ≤ '9')) = false := by
      rcases hc1 with h | h
      · have : ¬ ('0' ≤ c) := not_le.mpr h
        simp [this]
      · have : ¬ (c ≤ '9') := not_le.mpr h
        simp [this]
    simp [isUnitChar, h1, h2]
  rw [hct] at hli ⊢
  simp only [List.cons_append] at hli ⊢
  unfold parseGroup
  simp only [hc0.2.2.2.2.2.2.2, Bool.not_true, Bool.false_eq_true, if_false, hli]
  have hmatch : fractionPart [c] = ((0 : Nat), F64.ofInt 1, [c], false) := by
    unfold fractionPart
    split
    · rename_i s2 heq
      simp only [List.cons.injEq] at heq
      exact absurd heq.1 hc2
    · rfl
  simp only [hmatch]
  simp [hunit, hmap]
  exact (Nat.le_div_iff_mul_le hpos).mpr (Nat.le_trans hfit (by norm_num))

theorem ParseDuration_toDigits_unit (m : Nat) (c : Char) (unit : Nat)
    (hc1 : c < '0' ∨ '9' < c) (hc2 : c ≠ '.') (hmap : unitMap [c] = some unit)
    (hpos : 0 < unit) (hfit : m * unit ≤ 2 ^ 63 - 1) :
    ParseDuration (Nat.toDigits 10 m ++ [c]) = some ((m * unit : Nat) : Int) := by
  have hgrp := parseGroup_toDigits_unit m c unit hc1 hc2 hmap hpos hfit
  obtain ⟨hne, hmem, _⟩ := toDigits_spec m
  obtain ⟨c0, t, hct⟩ := List.exists_cons_of_ne_nil hne
  have hc0 := digitChars_facts c0 (hmem c0 (by rw [hct]; exact List.mem_cons_self _ _))
  rw [hct] at hgrp ⊢
  simp only [List.cons_append] at hgrp ⊢
  have h1 : ((c0 :: (t ++ [c])).head? == some '-') = false := by simp [hc0.2.2.2.1]
  have h2 : ((c0 :: (t ++ [c])).head? == some '+') = false := by simp [hc0.2.2.2.2.1]
  have h3 : ¬ (c0 :: (t ++ [c]) = ['0']) := by
    intro h
    have := congrArg List.length h
    simp at this
  have hlt : m * unit < 2 ^ 64 := by omega
  unfold ParseDuration
  simp only [h1, h2, Bool.false_eq_true, or_self, if_false, h3, List.length_cons,
    parseGroups, hgrp, Nat.zero_add, Nat.mod_eq_of_lt hlt]
  have hle : ¬ (2 ^ 63 < m * unit) := by
    have h63 : (2 : Nat) ^ 63 - 1 < 2 ^ 63 := by norm_num
    exact not_lt.mpr (le_of_lt (lt_of_le_of_lt hfit h63))
  have hle2 : ¬ (2 ^ 63 - 1 < m * unit) := not_lt.mpr hfit
  rw [if_neg (by simp), if_neg hle]
  simp only [if_neg hle2]

theorem wrap64_of_range (x : Int) (h1 : -(2 ^ 63) ≤ x) (h2 : x < 2 ^ 63) : wrap64 x = x := by
  unfold wrap64
  omega

theorem normalizeMtbf_integer (s : GoString) (last : Char) (n : Nat)
    (hs : (if last = 'd' then TrimRight s 'd' else s) = Nat.toDigits 10 n) (hn : n * 24 < 2 ^ 63) :
    normalizeMtbf s last = Nat.toDigits 10 (n * 24) ++ ['h'] := by
  unfold normalizeMtbf
  simp only [hs]
  rw [Atoi_toDigits n (by omega)]
  simp only []
  rw [wrap64_of_range _ (by omega) (by omega)]
  unfold formatInt
  rw [if_neg (by omega)]
  congr 2

theorem normalizeMtbf_unit (n : Nat) (c : Char) (hc : c.isDigit = false) (hd : c ≠ 'd') :
    normalizeMtbf (Nat.toDigits 10 n ++ [c]) c = Nat.toDigits 10 n ++ [c] := by
  simp only [normalizeMtbf, if_neg hd, Atoi_with_unit n c hc]

theorem ParseMtbf_of_ParseDuration (s : GoString) (last : Char) (d : Int)
    (hlast : s.getLast? = some last) (hp : ParseDuration (normalizeMtbf s last) = some d)
    (hd : Minute ≤ d) : ParseMtbf s = .ret (.ok d) := by
  unfold ParseMtbf
  simp only [hlast, hp, one_minute_eq]
  rw [if_neg (not_lt.mpr hd)]

/-- Claim C1. For a positive integer `n` whose `n * 24` hours fit in a
`time.Duration`, `ParseMtbf` succeeds on the decimal numeral of `n` followed
by `d` and on the bare numeral with `n * 24` hours, on the numeral followed
by `h` with `n` hours and on the numeral followed by `m` with `n` minutes. -/
theorem ParseMtbf_days_hours_minutes (n : Nat) (hpos : 0 < n)
    (hfit : (n : Int) * 24 * Hour ≤ maxInt64) :
    ParseMtbf (Nat.toDigits 10 n ++ ['d']) = .ret (.ok ((n : Int) * 24 * Hour))
      ∧ ParseMtbf (Nat.toDigits 10 n) = .ret (.ok ((n : Int) * 24 * Hour))
      ∧ ParseMtbf (Nat.toDigits 10 n ++ ['h']) = .ret (.ok ((n : Int) * Hour))
      ∧ ParseMtbf (Nat.toDigits 10 n ++ ['m']) = .ret (.ok ((n : Int) * Minute)) := by
  unfold maxInt64 Hour at hfit
  have hn : n ≤ 106751 := by omega
  have hday : ParseDuration (Nat.toDigits 10 (n * 24) ++ ['h'])
      = some ((n : Int) * 24 * Hour) := by
    rw [ParseDuration_toDigits_unit (n * 24) 'h' 3600000000000 (by decide) (by decide)
      (by decide) (by decide) (by omega)]
    unfold Hour
    push_cast
    rfl
  refine ⟨?_, ?_, ?_, ?_⟩
  · apply ParseMtbf_of_ParseDuration _ 'd'
    · simp
    · rw [normalizeMtbf_integer _ 'd' n (by simp [TrimRight_toDigits_d]) (by omega)]
      exact hday
    · unfold Minute Hour; omega
  · obtain ⟨c, hc, hcm⟩ := getLast_toDigits n
    apply ParseMtbf_of_ParseDuration _ c _ hc
    · rw [normalizeMtbf_integer _ c n
        (by rw [if_neg (digitChars_facts c hcm).2.2.1]) (by omega)]
      exact hday
    · unfold Minute Hour; omega
  · apply ParseMtbf_of_ParseDuration _ 'h'
    · simp
    · rw [normalizeMtbf_unit n 'h' (by decide) (by decide)]
      rw [ParseDuration_toDigits_unit n 'h' 3600000000000 (by decide) (by decide)
        (by decide) (by decide) (by omega)]
      unfold Hour
      push_cast
      rfl
    · unfold Minute Hour; omega
  · apply ParseMtbf_of_ParseDuration _ 'm'
    · simp
    · rw [normalizeMtbf_unit n 'm' (by decide) (by decide)]
      rw [ParseDuration_toDigits_unit n 'm' 60000000000 (by decide) (by decide)
        (by decide) (by decide) (by omega)]
      unfold Minute
      push_cast
      rfl
    · unfold Minute; omega

theorem ParseMtbf_days_hours_minutes_witness :
    ParseMtbf "2d".toList = .ret (.ok (48 * Hour))
      ∧ ParseMtbf "2".toList = .ret (.ok (48 * Hour))
      ∧ ParseMtbf "2h".toList = .ret (.ok (2 * Hour))
      ∧ ParseMtbf "2m".toList = .ret (.ok (2 * Minute)) :=
  ParseMtbf_days_hours_minutes 2 (by decide) (by decide)

/-! ## Claim C2: the one-minute minimum -/

/-- Claim C2. Every duration `ParseMtbf` returns without error is at least
one minute; whenever the normalized expression parses to a duration strictly
below one minute, `ParseMtbf` returns the below-minimum error (so do `30s`,
`0`, `-5m` and `-5`); exactly one minute (`1m`, `60s`) is accepted. -/
theorem ParseMtbf_minimum (s : GoString) (d : Int) :
    (ParseMtbf s = .ret (.ok d) → Minute ≤ d)
      ∧ (∀ last, s.getLast? = some last → ParseDuration (normalizeMtbf s last) = some d →
          d < Minute → ParseMtbf s = .ret (.error .belowMinimum))
      ∧ ParseMtbf "30s".toList = .ret (.error .belowMinimum)
      ∧ ParseMtbf "0".toList = .ret (.error .belowMinimum)
      ∧ ParseMtbf "-5m".toList = .ret (.error .belowMinimum)
      ∧ ParseMtbf "-5".toList = .ret (.error .belowMinimum)
      ∧ ParseMtbf "1m".toList = .ret (.ok Minute)
      ∧ ParseMtbf "60s".toList = .ret (.ok Minute) := by
  refine ⟨?_, ?_, by decide, by decide, by decide, by decide, by decide, by decide⟩
  · intro h
    unfold ParseMtbf at h
    rw [one_minute_eq] at h
    split at h
    · cases h
    · split at h
      · cases h
      · split at h
        · cases h
        · rename_i hlt
          cases h
          exact not_lt.mp hlt
  · intro last hlast hp hlt
    unfold ParseMtbf
    simp only [hlast, hp, one_minute_eq]
    rw [if_pos hlt]

theorem ParseMtbf_minimum_witness :
    Minute ≤ 2 * Minute ∧ ParseMtbf "59s".toList = .ret (.error .belowMinimum) :=
  ⟨(ParseMtbf_minimum "2m".toList (2 * Minute)).1 (by decide),
    (ParseMtbf_minimum "59s".toList (59 * Second)).2.1 's' (by decide) (by decide) (by decide)⟩

/-! ## The random offset -/

theorem wrap64_range (x : Int) : -(2 ^ 63) ≤ wrap64 x ∧ wrap64 x < 2 ^ 63 := by
  unfold wrap64
  omega

theorem RandomOffsetTime_ret (r : Rand) (startTime : Time) (timeWindow : Int)
    (hlo : Second ≤ timeWindow) (hhi : timeWindow ≤ maxInt64) :
    ∃ k : Int, 0 ≤ k ∧ k < timeWindow / Second ∧ k * Second < timeWindow
      ∧ RandomOffsetTime r startTime timeWindow
          = .ret (⟨startTime.unixNano + k * Second, startTime.loc⟩, r.next) := by
  unfold Second maxInt64 at *
  have hdiv : Int.tdiv timeWindow 1000000000 = timeWindow / 1000000000 :=
    Int.tdiv_eq_ediv (by omega) (by omega)
  have hpos : 0 < timeWindow / 1000000000 := by omega
  refine ⟨(r.draws 0 : Int) % (timeWindow / 1000000000), ?_, ?_, ?_, ?_⟩
  · exact Int.emod_nonneg _ (by omega)
  · exact Int.emod_lt_of_pos _ hpos
  · have := Int.emod_lt_of_pos (r.draws 0 : Int) hpos
    omega
  · have h1 := Int.emod_lt_of_pos (r.draws 0 : Int) hpos
    have h2 := Int.emod_nonneg (r.draws 0 : Int) (show timeWindow / 1000000000 ≠ 0 by omega)
    unfold RandomOffsetTime Int63n Second
    rw [hdiv, if_neg (by omega)]
    simp only [Time.Add]
    rw [wrap64_of_range _ (by omega) (by omega)]

theorem RandomOffsetTime_fault (r : Rand) (startTime : Time) (timeWindow : Int)
    (h : timeWindow < Second) : RandomOffsetTime r startTime timeWindow = .fault := by
  unfold Second at h
  have hdiv : Int.tdiv timeWindow 1000000000 ≤ 0 := by
    rcases lt_or_le timeWindow 0 with hneg | hnn
    · have h0 : 0 ≤ Int.tdiv (-timeWindow) 1000000000 :=
        Int.tdiv_nonneg (by omega) (by omega)
      rw [Int.neg_tdiv] at h0
      omega
    · rw [Int.tdiv_eq_zero_of_lt hnn h]
  unfold RandomOffsetTime Int63n Second
  rw [if_pos hdiv]

/-! ## Claim C6: `RandomOffsetTime` -/

/-- Claim C6, as stated, fails: a window of half a second is greater than
zero, yet `RandomOffsetTime` faults on it, because the window truncated to
whole seconds is zero and `Int63n(0)` panics. -/
theorem RandomOffsetTime_subsecond_window_faults :
    0 < 500 * Millisecond
      ∧ RandomOffsetTime ⟨fun _ => 0⟩ (Date 17637 0 0 0 0 UTC) (500 * Millisecond) = .fault :=
  ⟨by decide, RandomOffsetTime_fault _ _ _ (by decide)⟩

/-- Claim C6, amended. For every randomness source, every start instant and
every window of at least one second, `RandomOffsetTime` returns the start plus
a whole number of seconds `k` with `0 ≤ k` and `k` below the window expressed
in seconds, so the result lies in `[start, start + window)`. -/
theorem RandomOffsetTime_in_window (r : Rand) (startTime : Time) (timeWindow : Int)
    (hlo : Second ≤ timeWindow) (hhi : timeWindow ≤ maxInt64) :
    ∃ k : Int, 0 ≤ k ∧ k < Int.tdiv timeWindow Second
      ∧ RandomOffsetTime r startTime timeWindow = .ret (startTime.Add (k * Second), r.next)
      ∧ startTime.unixNano ≤ (startTime.Add (k * Second)).unixNano
      ∧ (startTime.Add (k * Second)).unixNano < startTime.unixNano + timeWindow := by
  obtain ⟨k, hk0, hk1, hk2, hret⟩ := RandomOffsetTime_ret r startTime timeWindow hlo hhi
  have hdiv : Int.tdiv timeWindow Second = timeWindow / Second :=
    Int.tdiv_eq_ediv (by unfold Second at hlo; omega) (by decide)
  refine ⟨k, hk0, by rw [hdiv]; exact hk1, hret, ?_, ?_⟩
  · unfold Second at *
    simp only [Time.Add]
    omega
  · unfold Second at *
    simp only [Time.Add]
    omega

theorem RandomOffsetTime_in_window_witness :
    ∃ k : Int, 0 ≤ k ∧ k < Int.tdiv (2 * Hour) Second
      ∧ RandomOffsetTime ⟨fun _ => 7777⟩ (Date 17637 9 0 0 0 UTC) (2 * Hour)
          = .ret ((Date 17637 9 0 0 0 UTC).Add (k * Second), Rand.next ⟨fun _ => 7777⟩)
      ∧ (Date 17637 9 0 0 0 UTC).unixNano ≤ ((Date 17637 9 0 0 0 UTC).Add (k * Second)).unixNano
      ∧ ((Date 17637 9 0 0 0 UTC).Add (k * Second)).unixNano
          < (Date 17637 9 0 0 0 UTC).unixNano + 2 * Hour :=
  RandomOffsetTime_in_window ⟨fun _ => 7777⟩ (Date 17637 9 0 0 0 UTC) (2 * Hour)
    (by decide) (by decide)

/-! ## The sampling loop -/

theorem Time_Sub_range (t u : Time) : minInt64 ≤ t.Sub u ∧ t.Sub u ≤ maxInt64 := by
  unfold Time.Sub minInt64 maxInt64
  split
  · omega
  · split <;> omega

theorem RandomOffsetTime_bounds (r r1 : Rand) (startTime t : Time) (timeWindow : Int)
    (hhi : timeWindow ≤ maxInt64) (h : RandomOffsetTime r startTime timeWindow = .ret (t, r1)) :
    Second ≤ timeWindow ∧ startTime.unixNano ≤ t.unixNano
      ∧ t.unixNano < startTime.unixNano + timeWindow := by
  rcases lt_or_le timeWindow Second with hlt | hge
  · rw [RandomOffsetTime_fault r startTime timeWindow hlt] at h
    cases h
  · obtain ⟨k, hk0, _, hk2, hret⟩ := RandomOffsetTime_ret r startTime timeWindow hge hhi
    rw [hret] at h
    cases h
    unfold Second at *
    refine ⟨hge, ?_, ?_⟩ <;> simp only [] <;> omega

theorem sampleLoop_regimeA (timeDuration timeWindow : Int) (todayStartTime todayEndTime : Time)
    (now : Time) (hA : timeDuration < timeWindow) :
    ∀ (fuel : Nat) (r : Rand) (startTime : Time) (times res : List Time),
      now.unixNano ≤ startTime.unixNano →
      (∀ t ∈ times, todayStartTime.unixNano < t.unixNano ∧ t.unixNano < todayEndTime.unixNano
        ∧ now.unixNano ≤ t.unixNano) →
      sampleLoop timeDuration timeWindow todayStartTime todayEndTime fuel r startTime times
        = .ret res →
      ∀ t ∈ res, todayStartTime.unixNano < t.unixNano ∧ t.unixNano < todayEndTime.unixNano
        ∧ now.unixNano ≤ t.unixNano := by
  intro fuel
  induction fuel with
  | zero =>
    intro r startTime times res _ _ h
    simp [sampleLoop] at h
  | succ fuel ih =>
    intro r startTime times res hstart htimes h
    rw [sampleLoop, if_pos hA] at h
    split at h
    · rename_i randCalTime r1 hoff
      have hb := RandomOffsetTime_bounds r r1 startTime randCalTime _
        (Time_Sub_range _ _).2 hoff
      split at h
      · rename_i hbefore
        have hlt : randCalTime.unixNano < todayEndTime.unixNano := by
          simpa [Time.Before] using hbefore
        refine ih r1 randCalTime _ res (by omega) ?_ h
        split
        · rename_i hafter
          have hgt : todayStartTime.unixNano < startTime.unixNano := by
            simpa [Time.After] using hafter
          intro t ht
          rcases List.mem_append.mp ht with ht | ht
          · exact htimes t ht
          · simp only [List.mem_singleton] at ht
            subst ht
            exact ⟨by omega, hlt, by omega⟩
        · exact htimes
      · cases h
        exact htimes
    · cases h
    · cases h

theorem sampleLoop_regimeB (timeDuration timeWindow : Int) (todayStartTime todayEndTime : Time)
    (hB : ¬ timeDuration < timeWindow) (hW : Second ≤ timeWindow) (hWmax : timeWindow ≤ maxInt64)
    (hE : todayStartTime.unixNano + timeWindow ≤ todayEndTime.unixNano)
    (fuel : Nat) (r : Rand) (startTime : Time) :
    ∃ res, sampleLoop timeDuration timeWindow todayStartTime todayEndTime (fuel + 1) r startTime []
        = .ret res
      ∧ res.length ≤ 1
      ∧ ∀ t ∈ res, todayStartTime.unixNano ≤ t.unixNano ∧ t.unixNano < todayEndTime.unixNano := by
  rw [sampleLoop, if_neg hB]
  split
  · obtain ⟨k, hk0, _, hk2, hret⟩ :=
      RandomOffsetTime_ret (Float64 r).2 todayStartTime timeWindow hW hWmax
    rw [hret]
    refine ⟨_, rfl, by simp, ?_⟩
    intro t ht
    simp only [List.nil_append, List.mem_singleton] at ht
    subst ht
    simp only []
    unfold Second at *
    omega
  · exact ⟨[], rfl, by simp, by simp⟩

theorem Date_window (date startHour endHour : Int) (loc : Location)
    (h : startHour < endHour) :
    Second ≤ (Date date endHour 0 0 0 loc).Sub (Date date startHour 0 0 0 loc)
      ∧ (Date date startHour 0 0 0 loc).unixNano
          + (Date date endHour 0 0 0 loc).Sub (Date date startHour 0 0 0 loc)
        ≤ (Date date endHour 0 0 0 loc).unixNano := by
  unfold Time.Sub Date minInt64 maxInt64 Second
  simp only []
  split
  · omega
  · split <;> omega

theorem ParseDuration_range (s : GoString) (d : Int) (h : ParseDuration s = some d) :
    minInt64 ≤ d ∧ d ≤ maxInt64 := by
  unfold ParseDuration at h
  unfold minInt64 maxInt64
  dsimp only at h
  generalize (if s.head? == some '-' ∨ s.head? == some '+' then s.tail else s) = s1 at h
  split at h
  · cases h; omega
  · split at h
    · cases h
    · split at h
      · cases h
      · rename_i d0 _
        split at h
        · have h1 := Option.some.inj h
          have := wrap64_range (-(wrap64 (d0 : Int)))
          omega
        · split at h
          · cases h
          · rename_i hle
            have h1 := Option.some.inj h
            omega

theorem ParseMtbf_range (s : GoString) (d : Int) (h : ParseMtbf s = .ret (.ok d)) :
    Minute ≤ d ∧ d ≤ maxInt64 := by
  unfold ParseMtbf at h
  rw [one_minute_eq] at h
  split at h
  · cases h
  · split at h
    · cases h
    · rename_i d0 hp
      split at h
      · cases h
      · rename_i hlt
        cases h
        exact ⟨not_lt.mp hlt, (ParseDuration_range _ _ hp).2⟩

/-! ## Claims C3, C4 and C5: where the kill times fall -/

theorem RandomTimeInRange_parsed (mtbf : GoString) (startHour endHour : Int) (loc : Location)
    (now : Time) (r : Rand) (fuel : Nat) (d : Int) (hparse : ParseMtbf mtbf = .ret (.ok d)) :
    RandomTimeInRange mtbf startHour endHour loc now r fuel
      = sampleLoop (wrap64 (d * 2))
          ((Date (now.In loc).Date endHour 0 0 0 loc).Sub
            (Date (now.In loc).Date startHour 0 0 0 loc))
          (Date (now.In loc).Date startHour 0 0 0 loc) (Date (now.In loc).Date endHour 0 0 0 loc)
          fuel r (now.In loc) [] := by
  unfold RandomTimeInRange
  rw [hparse]

/-- Claim C3. In Regime A of `RandomTimeInRange` (the window span is strictly
greater than twice the parsed MTBF), for every randomness source and every
construction time, every instant of the returned sequence is strictly before
`todayEndTime` and strictly after `todayStartTime`. -/
theorem RandomTimeInRange_regimeA_inside_window (mtbf : GoString) (startHour endHour : Int)
    (loc : Location) (now : Time) (r : Rand) (fuel : Nat) (d : Int) (times : List Time)
    (hparse : ParseMtbf mtbf = .ret (.ok d))
    (hA : d * 2 < (Date (now.In loc).Date endHour 0 0 0 loc).Sub
      (Date (now.In loc).Date startHour 0 0 0 loc))
    (hret : RandomTimeInRange mtbf startHour endHour loc now r fuel = .ret times) :
    ∀ t ∈ times, t.Before (Date (now.In loc).Date endHour 0 0 0 loc) = true
      ∧ t.After (Date (now.In loc).Date startHour 0 0 0 loc) = true := by
  have hd := ParseMtbf_range mtbf d hparse
  have hW := Time_Sub_range (Date (now.In loc).Date endHour 0 0 0 loc)
    (Date (now.In loc).Date startHour 0 0 0 loc)
  have hwrap : wrap64 (d * 2) = d * 2 := by
    unfold Minute maxInt64 at *
    exact wrap64_of_range _ (by omega) (by omega)
  rw [RandomTimeInRange_parsed mtbf startHour endHour loc now r fuel d hparse, hwrap] at hret
  intro t ht
  have := sampleLoop_regimeA _ _ _ _ (now.In loc) hA fuel r (now.In loc) [] times
    (le_refl _) (by simp) hret t ht
  simp only [Time.Before, Time.After, decide_eq_true_eq]
  exact ⟨this.2.1, this.1⟩

theorem RandomTimeInRange_regimeA_inside_window_witness :
    RandomTimeInRange "1h".toList 8 16 UTC (Date 17637 9 0 0 0 UTC) ⟨fun _ => 7000⟩ 10
        = .ret [Date 17637 0 0 39400 0 UTC, Date 17637 0 0 46400 0 UTC,
            Date 17637 0 0 53400 0 UTC]
      ∧ ((Date 17637 0 0 53400 0 UTC).Before
            (Date ((Date 17637 9 0 0 0 UTC).In UTC).Date 16 0 0 0 UTC) = true
        ∧ (Date 17637 0 0 53400 0 UTC).After
            (Date ((Date 17637 9 0 0 0 UTC).In UTC).Date 8 0 0 0 UTC) = true) :=
  ⟨by decide,
    RandomTimeInRange_regimeA_inside_window "1h".toList 8 16 UTC (Date 17637 9 0 0 0 UTC)
      ⟨fun _ => 7000⟩ 10 Hour
      [Date 17637 0 0 39400 0 UTC, Date 17637 0 0 46400 0 UTC, Date 17637 0 0 53400 0 UTC]
      (by decide) (by decide) (by decide) (Date 17637 0 0 53400 0 UTC) (by simp)⟩

/-- Claim C4. In Regime B of `RandomTimeInRange` (the window span is not
greater than twice the parsed MTBF) with `startHour < endHour`, for every
randomness source a returned sequence has length 0 or 1 and its instant `t`,
when there is one, satisfies `todayStartTime ≤ t < todayEndTime`; moreover the
call does return as soon as twice the MTBF fits in a `time.Duration` and the
loop may run once. -/
theorem RandomTimeInRange_regimeB_at_most_one (mtbf : GoString) (startHour endHour : Int)
    (loc : Location) (now : Time) (r : Rand) (fuel : Nat) (d : Int)
    (hparse : ParseMtbf mtbf = .ret (.ok d))
    (hB : (Date (now.In loc).Date endHour 0 0 0 loc).Sub
      (Date (now.In loc).Date startHour 0 0 0 loc) ≤ d * 2)
    (hhours : startHour < endHour) :
    (∀ times, RandomTimeInRange mtbf startHour endHour loc now r fuel = .ret times →
        times.length ≤ 1
          ∧ ∀ t ∈ times, (Date (now.In loc).Date startHour 0 0 0 loc).unixNano ≤ t.unixNano
              ∧ t.unixNano < (Date (now.In loc).Date endHour 0 0 0 loc).unixNano)
      ∧ (d * 2 ≤ maxInt64 → 0 < fuel →
          ∃ times, RandomTimeInRange mtbf startHour endHour loc now r fuel = .ret times) := by
  have hd := ParseMtbf_range mtbf d hparse
  have hW := Time_Sub_range (Date (now.In loc).Date endHour 0 0 0 loc)
    (Date (now.In loc).Date startHour 0 0 0 loc)
  have hwin := Date_window (now.In loc).Date startHour endHour loc hhours
  rw [RandomTimeInRange_parsed mtbf startHour endHour loc now r fuel d hparse]
  rcases le_or_lt (d * 2) maxInt64 with hfits | hover
  · have hwrap : wrap64 (d * 2) = d * 2 := by
      unfold Minute maxInt64 at *
      exact wrap64_of_range _ (by omega) (by omega)
    rw [hwrap]
    constructor
    · intro times hret
      cases fuel with
      | zero => simp [sampleLoop] at hret
      | succ fuel =>
        obtain ⟨res, hres, hlen, hmem⟩ := sampleLoop_regimeB (d * 2) _ _ _ (not_lt.mpr hB)
          hwin.1 hW.2 hwin.2 fuel r (now.In loc)
        rw [hres] at hret
        cases hret
        exact ⟨hlen, hmem⟩
    · intro _ hfuel
      obtain ⟨fuel, rfl⟩ : ∃ f, fuel = f + 1 := ⟨fuel - 1, by omega⟩
      obtain ⟨res, hres, _, _⟩ := sampleLoop_regimeB (d * 2) _ _ _ (not_lt.mpr hB)
        hwin.1 hW.2 hwin.2 fuel r (now.In loc)
      exact ⟨res, hres⟩
  · constructor
    · intro times hret
      exfalso
      have hneg : wrap64 (d * 2) < 0 := by
        unfold wrap64
        unfold Minute maxInt64 at *
        omega
      cases fuel with
      | zero => simp [sampleLoop] at hret
      | succ fuel =>
        have hlt : wrap64 (d * 2) < (Date (now.In loc).Date endHour 0 0 0 loc).Sub
            (Date (now.In loc).Date startHour 0 0 0 loc) := by
          have := hwin.1
          unfold Second at this
          omega
        have hsub : ((now.In loc).Add (wrap64 (d * 2))).Sub (now.In loc) = wrap64 (d * 2) := by
          have hr := wrap64_range (d * 2)
          unfold Time.Sub Time.Add minInt64 maxInt64
          simp only []
          rw [if_neg (by omega), if_neg (by omega)]
          omega
        rw [sampleLoop, if_pos hlt, hsub,
          RandomOffsetTime_fault r (now.In loc) _ (by unfold Second; omega)] at hret
        cases hret
    · intro hle
      omega

theorem RandomTimeInRange_regimeB_at_most_one_witness :
    (∀ times, RandomTimeInRange "10d".toList 8 16 UTC (Date 17637 15 0 0 0 UTC)
          ⟨fun _ => 3600⟩ 1 = .ret times →
        times.length ≤ 1
          ∧ ∀ t ∈ times,
              (Date ((Date 17637 15 0 0 0 UTC).In UTC).Date 8 0 0 0 UTC).unixNano ≤ t.unixNano
              ∧ t.unixNano
                  < (Date ((Date 17637 15 0 0 0 UTC).In UTC).Date 16 0 0 0 UTC).unixNano)
      ∧ (240 * Hour * 2 ≤ maxInt64 → 0 < 1 →
          ∃ times, RandomTimeInRange "10d".toList 8 16 UTC (Date 17637 15 0 0 0 UTC)
            ⟨fun _ => 3600⟩ 1 = .ret times) :=
  RandomTimeInRange_regimeB_at_most_one "10d".toList 8 16 UTC (Date 17637 15 0 0 0 UTC)
    ⟨fun _ => 3600⟩ 1 (240 * Hour) (by decide) (by decide) (by decide)

/-- Claim C5, as stated, fails. In Regime B (MTBF `10d`, window 8 to 16, built
at 15:00) the returned instant is 09:00, six hours before the schedule is
built; in Regime A (MTBF `1h`, built at 09:00) a first draw of zero seconds
returns the construction time itself, which is not after it. -/
theorem RandomTimeInRange_instant_not_after_now :
    (RandomTimeInRange "10d".toList 8 16 UTC (Date 17637 15 0 0 0 UTC) ⟨fun _ => 3600⟩ 1
          = .ret [Date 17637 9 0 0 0 UTC]
        ∧ (Date 17637 9 0 0 0 UTC).Before (Date 17637 15 0 0 0 UTC) = true)
      ∧ (RandomTimeInRange "1h".toList 8 16 UTC (Date 17637 9 0 0 0 UTC)
            ⟨fun i => if i = 0 then 0 else 7100⟩ 10
          = .ret [Date 17637 9 0 0 0 UTC, Date 17637 0 0 39500 0 UTC,
              Date 17637 0 0 46600 0 UTC, Date 17637 0 0 53700 0 UTC]
        ∧ (Date 17637 9 0 0 0 UTC).After (Date 17637 9 0 0 0 UTC) = false) := by
  decide

/-- Claim C5, amended. For every parsable MTBF, working window, randomness
source and construction time `now`: in Regime A (the branch taken when the
window span exceeds the doubled MTBF) no returned instant is before `now`; in
Regime B with `startHour < endHour` every returned instant lies in
`[todayStartTime, todayEndTime)`, whether or not `now` has passed it. -/
theorem RandomTimeInRange_versus_now (mtbf : GoString) (startHour endHour : Int)
    (loc : Location) (now : Time) (r : Rand) (fuel : Nat) (d : Int) (times : List Time)
    (hparse : ParseMtbf mtbf = .ret (.ok d))
    (hret : RandomTimeInRange mtbf startHour endHour loc now r fuel = .ret times) :
    (wrap64 (d * 2) < (Date (now.In loc).Date endHour 0 0 0 loc).Sub
          (Date (now.In loc).Date startHour 0 0 0 loc) →
        ∀ t ∈ times, t.Before now = false)
      ∧ (¬ wrap64 (d * 2) < (Date (now.In loc).Date endHour 0 0 0 loc).Sub
          (Date (now.In loc).Date startHour 0 0 0 loc) → startHour < endHour →
        ∀ t ∈ times, (Date (now.In loc).Date startHour 0 0 0 loc).unixNano ≤ t.unixNano
          ∧ t.unixNano < (Date (now.In loc).Date endHour 0 0 0 loc).unixNano) := by
  rw [RandomTimeInRange_parsed mtbf startHour endHour loc now r fuel d hparse] at hret
  constructor
  · intro hA t ht
    have := sampleLoop_regimeA _ _ _ _ (now.In loc) hA fuel r (now.In loc) [] times
      (le_refl _) (by simp) hret t ht
    have h3 : now.unixNano ≤ t.unixNano := this.2.2
    simp only [Time.Before, decide_eq_false_iff_not, not_lt]
    exact h3
  · intro hB hhours
    have hW := Time_Sub_range (Date (now.In loc).Date endHour 0 0 0 loc)
      (Date (now.In loc).Date startHour 0 0 0 loc)
    have hwin := Date_window (now.In loc).Date startHour endHour loc hhours
    cases fuel with
    | zero => simp [sampleLoop] at hret
    | succ fuel =>
      obtain ⟨res, hres, _, hmem⟩ := sampleLoop_regimeB (wrap64 (d * 2)) _ _ _ hB
        hwin.1 hW.2 hwin.2 fuel r (now.In loc)
      rw [hres] at hret
      cases hret
      exact hmem

theorem RandomTimeInRange_versus_now_witness :
    (wrap64 (Hour * 2) < (Date ((Date 17637 9 0 0 0 UTC).In UTC).Date 16 0 0 0 UTC).Sub
          (Date ((Date 17637 9 0 0 0 UTC).In UTC).Date 8 0 0 0 UTC) →
        ∀ t ∈ [Date 17637 0 0 39400 0 UTC, Date 17637 0 0 46400 0 UTC,
            Date 17637 0 0 53400 0 UTC],
          t.Before (Date 17637 9 0 0 0 UTC) = false)
      ∧ (¬ wrap64 (Hour * 2) < (Date ((Date 17637 9 0 0 0 UTC).In UTC).Date 16 0 0 0 UTC).Sub
          (Date ((Date 17637 9 0 0 0 UTC).In UTC).Date 8 0 0 0 UTC) → (8 : Int) < 16 →
        ∀ t ∈ [Date 17637 0 0 39400 0 UTC, Date 17637 0 0 46400 0 UTC,
            Date 17637 0 0 53400 0 UTC],
          (Date ((Date 17637 9 0 0 0 UTC).In UTC).Date 8 0 0 0 UTC).unixNano ≤ t.unixNano
          ∧ t.unixNano < (Date ((Date 17637 9 0 0 0 UTC).In UTC).Date 16 0 0 0 UTC).unixNano) :=
  RandomTimeInRange_versus_now "1h".toList 8 16 UTC (Date 17637 9 0 0 0 UTC)
    ⟨fun _ => 7000⟩ 10 Hour _ (by decide) (by decide)

/-! ## Claim C7: the day-level gate -/

/-- Claim C7 fails on the code at MTBF `36h`. The gate divides the two
durations as integers before converting to `float64`, so the probability is
`1 / 1` instead of `1 / 1.5`: with the day-level draw at its largest value
`(2^53 - 1) / 2^53`, well above `2 / 3`, `New` still adds the candidate. -/
theorem New_day_gate_truncates_days :
    ParseMtbf "36h".toList = .ret (.ok (36 * Hour))
      ∧ F64.ofInt (Int.tdiv (36 * Hour) one_day) = F64.ofInt 1
      ∧ New ⟨UTC, 8, 16, false, false, false⟩
          (.ok [⟨"Deployment".toList, "default".toList, "web".toList, "36h".toList⟩])
          (fun _ => ⟨Date 17637 15 0 0 0 UTC, ⟨fun _ => 3600⟩, ⟨fun _ => 2 ^ 53 - 1⟩⟩) 1
        = .ret (.ok ⟨[⟨Date 17637 9 0 0 0 UTC,
            ⟨"Deployment".toList, "default".toList, "web".toList, "36h".toList⟩⟩]⟩) := by
  decide

/-! ## Claim C8: MTBF of ten days and of one hour -/

theorem gate_one_twentieth (k : Nat) :
    F64.gt (F64.div (F64.ofInt one_day) (F64.ofInt (wrap64 (240 * Hour * 2))))
        (.fin false k (-53))
      = decide (k < 450359962737050) := by
  have hdiv : F64.div (F64.ofInt one_day) (F64.ofInt (wrap64 (240 * Hour * 2)))
      = .fin false 7205759403792794 (-57) := by decide
  rw [hdiv]
  simp only [F64.gt, F64.lt, F64.scaledMantissa]
  rw [decide_eq_decide]
  norm_num [(by decide : Int.toNat 4 = 4), (by decide : Int.toNat 3 = 3)]
  omega

theorem gate_one_tenth (k : Nat) :
    F64.gt (F64.div (F64.ofInt 1) (F64.ofInt (Int.tdiv (240 * Hour) one_day)))
        (.fin false k (-53))
      = decide (k < 900719925474100) := by
  have hdiv : F64.div (F64.ofInt 1) (F64.ofInt (Int.tdiv (240 * Hour) one_day))
      = .fin false 7205759403792794 (-56) := by decide
  rw [hdiv]
  simp only [F64.gt, F64.lt, F64.scaledMantissa]
  rw [decide_eq_decide]
  norm_num [(by decide : Int.toNat 4 = 4), (by decide : Int.toNat 3 = 3)]
  omega

theorem sampleLoop_regimeB_eq (timeDuration timeWindow : Int) (todayStartTime todayEndTime : Time)
    (hB : ¬ timeDuration < timeWindow) (hW : Second ≤ timeWindow) (hWmax : timeWindow ≤ maxInt64)
    (fuel : Nat) (r : Rand) (startTime : Time) :
    ∃ t, sampleLoop timeDuration timeWindow todayStartTime todayEndTime (fuel + 1) r startTime []
      = .ret (if F64.gt (F64.div (F64.ofInt one_day) (F64.ofInt timeDuration)) (Float64 r).1
          then [t] else []) := by
  obtain ⟨k, _, _, _, hret⟩ :=
    RandomOffsetTime_ret (Float64 r).2 todayStartTime timeWindow hW hWmax
  refine ⟨⟨todayStartTime.unixNano + k * Second, todayStartTime.loc⟩, ?_⟩
  rw [sampleLoop, if_neg hB, hret]
  split <;> simp

theorem addKillTimes_entries (victim : Victim) : ∀ (killtimes : List Time) (schedule : Schedule),
    (addKillTimes victim killtimes schedule).entries
      = schedule.entries ++ killtimes.map (fun killtime => ⟨killtime, victim⟩) := by
  intro killtimes
  induction killtimes with
  | nil => intro schedule; simp [addKillTimes]
  | cons k ks ih =>
    intro schedule
    rw [addKillTimes, ih]
    simp [Schedule.Add]

theorem receivesEntry_ten_days (cfg : Config) (victim : Victim) (amb : Ambient) (fuel : Nat)
    (hnd : cfg.DebugEnabled = false) (hw : cfg.StartHour < cfg.EndHour)
    (hw24 : cfg.EndHour - cfg.StartHour ≤ 24) (hv : victim.Mtbf = "10d".toList)
    (hfuel : 0 < fuel) :
    receivesEntry cfg victim amb fuel
      = (decide (amb.sampler.draws 0 % 2 ^ 53 < 450359962737050)
          && decide (amb.gate.draws 0 % 2 ^ 53 < 900719925474100)) := by
  obtain ⟨fuel, rfl⟩ : ∃ f, fuel = f + 1 := ⟨fuel - 1, by omega⟩
  have hp : ParseMtbf victim.Mtbf = .ret (.ok (240 * Hour)) := by rw [hv]; decide
  have hwin := Date_window (amb.now.In cfg.Timezone).Date cfg.StartHour cfg.EndHour
    cfg.Timezone hw
  have hW := Time_Sub_range (Date (amb.now.In cfg.Timezone).Date cfg.EndHour 0 0 0 cfg.Timezone)
    (Date (amb.now.In cfg.Timezone).Date cfg.StartHour 0 0 0 cfg.Timezone)
  have hD : wrap64 (240 * Hour * 2) = 1728000000000000 := by decide
  have hB : ¬ wrap64 (240 * Hour * 2)
      < (Date (amb.now.In cfg.Timezone).Date cfg.EndHour 0 0 0 cfg.Timezone).Sub
          (Date (amb.now.In cfg.Timezone).Date cfg.StartHour 0 0 0 cfg.Timezone) := by
    rw [hD]
    unfold Time.Sub Date minInt64 maxInt64
    simp only []
    split
    · omega
    · split <;> omega
  obtain ⟨t, ht⟩ := sampleLoop_regimeB_eq _ _
    (Date (amb.now.In cfg.Timezone).Date cfg.StartHour 0 0 0 cfg.Timezone)
    (Date (amb.now.In cfg.Timezone).Date cfg.EndHour 0 0 0 cfg.Timezone)
    hB hwin.1 hW.2 fuel amb.sampler (amb.now.In cfg.Timezone)
  have hlt : ¬ (240 * Hour < one_day) := by decide
  unfold receivesEntry New
  simp only [buildLoop, hp, CalculateKillTimes, hnd, Bool.false_and, Bool.false_eq_true,
    if_false, RandomTimeInRange_parsed _ _ _ _ _ _ _ _ hp, ht, ShouldScheduleChaos,
    decide_eq_true_eq, hlt, Bool.false_or, Float64, gate_one_tenth, gate_one_twentieth]
  by_cases h1 : amb.sampler.draws 0 % 9007199254740992 < 450359962737050 <;>
    by_cases h2 : amb.gate.draws 0 % 9007199254740992 < 900719925474100 <;>
    simp [h1, h2, addKillTimes_entries]

theorem card_filter_pair (M N1 N2 : Nat) (h1 : N1 ≤ M) (h2 : N2 ≤ M) (P : Nat × Nat → Bool)
    (hP : ∀ a b, a < M → b < M → (P (a, b) = true ↔ a < N1 ∧ b < N2)) :
    ((Finset.range M ×ˢ Finset.range M).filter (fun p => P p = true)).card = N1 * N2 := by
  have hset : (Finset.range M ×ˢ Finset.range M).filter (fun p => P p = true)
      = Finset.range N1 ×ˢ Finset.range N2 := by
    ext ⟨a, b⟩
    simp only [Finset.mem_filter, Finset.mem_product, Finset.mem_range]
    constructor
    · rintro ⟨⟨ha, hb⟩, hp⟩
      exact (hP a b ha hb).mp hp
    · rintro ⟨ha, hb⟩
      exact ⟨⟨by omega, by omega⟩, (hP a b (by omega) (by omega)).mpr ⟨ha, hb⟩⟩
  rw [hset, Finset.card_product, Finset.card_range, Finset.card_range]

theorem receivesEntry_ten_days_count (cfg : Config) (victim : Victim) (now : Time) (fuel : Nat)
    (hnd : cfg.DebugEnabled = false) (hw : cfg.StartHour < cfg.EndHour)
    (hw24 : cfg.EndHour - cfg.StartHour ≤ 24) (hv : victim.Mtbf = "10d".toList)
    (hfuel : 0 < fuel) :
    ((Finset.range (2 ^ 53) ×ˢ Finset.range (2 ^ 53)).filter (fun p =>
        receivesEntry cfg victim ⟨now, Rand.startingWith p.1 0, Rand.startingWith p.2 0⟩ fuel
          = true)).card
      = 450359962737050 * 900719925474100 := by
  apply card_filter_pair (2 ^ 53) 450359962737050 900719925474100 (by norm_num) (by norm_num)
    (fun p => receivesEntry cfg victim ⟨now, Rand.startingWith p.1 0, Rand.startingWith p.2 0⟩ fuel)
  intro a b ha hb
  rw [receivesEntry_ten_days cfg victim _ fuel hnd hw hw24 hv hfuel]
  simp only [Rand.startingWith, if_true, Nat.mod_eq_of_lt ha, Nat.mod_eq_of_lt hb,
    Bool.and_eq_true, decide_eq_true_eq]

/-- Claim C8, as stated, fails. For MTBF `10d` and the window 8 to 16 the
victim also has to pass the Regime B gate of the Window Sampler, so among the
`2^53 * 2^53` equally likely pairs of draws (sampler gate, day-level gate) the
number of pairs giving the victim an entry is not one tenth of all pairs; it
is less than one hundredth of them. -/
theorem ten_days_entry_probability_not_one_tenth :
    ((Finset.range (2 ^ 53) ×ˢ Finset.range (2 ^ 53)).filter (fun p =>
        receivesEntry ⟨UTC, 8, 16, false, false, false⟩
          ⟨"Deployment".toList, "default".toList, "web".toList, "10d".toList⟩
          ⟨Date 17637 7 0 0 0 UTC, Rand.startingWith p.1 0, Rand.startingWith p.2 0⟩ 1
          = true)).card * 10
      ≠ 2 ^ 53 * 2 ^ 53
    ∧ ((Finset.range (2 ^ 53) ×ˢ Finset.range (2 ^ 53)).filter (fun p =>
        receivesEntry ⟨UTC, 8, 16, false, false, false⟩
          ⟨"Deployment".toList, "default".toList, "web".toList, "10d".toList⟩
          ⟨Date 17637 7 0 0 0 UTC, Rand.startingWith p.1 0, Rand.startingWith p.2 0⟩ 1
          = true)).card * 100
      < 2 ^ 53 * 2 ^ 53 := by
  rw [receivesEntry_ten_days_count _ _ _ 1 rfl (by decide) (by decide) rfl (by decide)]
  norm_num

theorem New_one_hour (cfg : Config) (victim : Victim) (amb : Ambient) (fuel : Nat)
    (hv : victim.Mtbf = "1h".toList) :
    New cfg (.ok [victim]) (fun _ => amb) fuel
      = (CalculateKillTimes cfg victim.Mtbf amb.now amb.sampler fuel).map
          (fun killtimes => .ok ⟨killtimes.map (fun killtime => ⟨killtime, victim⟩)⟩) := by
  have hp : ParseMtbf victim.Mtbf = .ret (.ok Hour) := by rw [hv]; decide
  have hlt : Hour < one_day := by decide
  unfold New
  simp only [buildLoop, hp, hlt, decide_True, Bool.true_or, if_true]
  cases CalculateKillTimes cfg victim.Mtbf amb.now amb.sampler fuel with
  | ret ks =>
    simp only [Outcome.map]
    congr 2
    have := addKillTimes_entries victim ks ⟨[]⟩
    cases h : addKillTimes victim ks ⟨[]⟩ with
    | mk entries =>
      rw [h] at this
      simp only [List.nil_append] at this
      rw [this]
  | fault => rfl
  | timeout => rfl

/-- Claim C8, amended. For a victim with MTBF `10d` (non-debug, a working
window `StartHour < EndHour` of at most 24 hours) the victim receives at
least one schedule entry exactly when the Regime B draw of the Window Sampler
is below `24h / 480h` and the day-level draw is below `1 / 10`, which happens
for `450359962737050 * 900719925474100` of the `2^53 * 2^53` pairs of draws,
about one in two hundred; a victim with MTBF `1h` is never dropped by the
day-level gate and receives exactly the candidates the sampler produced. -/
theorem New_ten_days_and_one_hour (cfg : Config) (victim : Victim) (amb : Ambient) (fuel : Nat) :
    (cfg.DebugEnabled = false → cfg.StartHour < cfg.EndHour →
        cfg.EndHour - cfg.StartHour ≤ 24 → victim.Mtbf = "10d".toList → 0 < fuel →
        (receivesEntry cfg victim amb fuel = true ↔
            amb.sampler.draws 0 % 2 ^ 53 < 450359962737050
              ∧ amb.gate.draws 0 % 2 ^ 53 < 900719925474100)
          ∧ ((Finset.range (2 ^ 53) ×ˢ Finset.range (2 ^ 53)).filter (fun p =>
              receivesEntry cfg victim
                ⟨amb.now, Rand.startingWith p.1 0, Rand.startingWith p.2 0⟩ fuel = true)).card
            = 450359962737050 * 900719925474100)
      ∧ (victim.Mtbf = "1h".toList →
          New cfg (.ok [victim]) (fun _ => amb) fuel
            = (CalculateKillTimes cfg victim.Mtbf amb.now amb.sampler fuel).map
                (fun killtimes => .ok ⟨killtimes.map (fun killtime => ⟨killtime, victim⟩)⟩)) := by
  refine ⟨fun hnd hw hw24 hv hfuel => ⟨?_, ?_⟩, New_one_hour cfg victim amb fuel⟩
  · rw [receivesEntry_ten_days cfg victim amb fuel hnd hw hw24 hv hfuel]
    simp only [Bool.and_eq_true, decide_eq_true_eq]
  · exact receivesEntry_ten_days_count cfg victim amb.now fuel hnd hw hw24 hv hfuel

theorem New_ten_days_and_one_hour_witness :
    ((receivesEntry ⟨UTC, 8, 16, false, false, false⟩
          ⟨"Deployment".toList, "default".toList, "web".toList, "10d".toList⟩
          ⟨Date 17637 7 0 0 0 UTC, ⟨fun _ => 3600⟩, ⟨fun _ => 3600⟩⟩ 1 = true ↔
        3600 % 2 ^ 53 < 450359962737050 ∧ 3600 % 2 ^ 53 < 900719925474100)
      ∧ ((Finset.range (2 ^ 53) ×ˢ Finset.range (2 ^ 53)).filter (fun p =>
          receivesEntry ⟨UTC, 8, 16, false, false, false⟩
            ⟨"Deployment".toList, "default".toList, "web".toList, "10d".toList⟩
            ⟨Date 17637 7 0 0 0 UTC, Rand.startingWith p.1 0, Rand.startingWith p.2 0⟩ 1
            = true)).card
        = 450359962737050 * 900719925474100)
      ∧ New ⟨UTC, 8, 16, false, false, false⟩
          (.ok [⟨"Deployment".toList, "default".toList, "web".toList, "1h".toList⟩])
          (fun _ => ⟨Date 17637 9 0 0 0 UTC, ⟨fun _ => 7000⟩, ⟨fun _ => 2 ^ 53 - 1⟩⟩) 10
        = (CalculateKillTimes ⟨UTC, 8, 16, false, false, false⟩ "1h".toList
            (Date 17637 9 0 0 0 UTC) ⟨fun _ => 7000⟩ 10).map
            (fun killtimes => .ok ⟨killtimes.map (fun killtime =>
              ⟨killtime, ⟨"Deployment".toList, "default".toList, "web".toList, "1h".toList⟩⟩)⟩) :=
  ⟨(New_ten_days_and_one_hour ⟨UTC, 8, 16, false, false, false⟩
      ⟨"Deployment".toList, "default".toList, "web".toList, "10d".toList⟩
      ⟨Date 17637 7 0 0 0 UTC, ⟨fun _ => 3600⟩, ⟨fun _ => 3600⟩⟩ 1).1
      rfl (by decide) (by decide) rfl (by decide),
    (New_ten_days_and_one_hour ⟨UTC, 8, 16, false, false, false⟩
      ⟨"Deployment".toList, "default".toList, "web".toList, "1h".toList⟩
      ⟨Date 17637 9 0 0 0 UTC, ⟨fun _ => 7000⟩, ⟨fun _ => 2 ^ 53 - 1⟩⟩ 10).2 rfl⟩

/-! ## Claim C9: the schedule is the concatenation of the victims' entries -/

theorem buildLoop_cons (cfg : Config) (amb : Nat → Ambient) (fuel : Nat) (victim : Victim)
    (victims : List Victim) (i : Nat) (schedule : Schedule) :
    buildLoop cfg amb fuel (victim :: victims) i schedule
      = match victimEntries cfg victim (amb i) fuel with
        | .ret es => buildLoop cfg amb fuel victims (i + 1) ⟨schedule.entries ++ es⟩
        | .fault => .fault
        | .timeout => .timeout := by
  have hadd : ∀ ks, addKillTimes victim ks schedule
      = ⟨schedule.entries ++ ks.map (fun killtime => ⟨killtime, victim⟩)⟩ := by
    intro ks
    have := addKillTimes_entries victim ks schedule
    cases h : addKillTimes victim ks schedule with
    | mk entries => rw [h] at this; simp only [] at this; rw [this]
  rw [buildLoop, victimEntries]
  cases hp : ParseMtbf victim.Mtbf with
  | ret res =>
    cases res with
    | error e => simp
    | ok parsed =>
      simp only []
      cases CalculateKillTimes cfg victim.Mtbf (amb i).now (amb i).sampler fuel with
      | ret ks =>
        simp only [Outcome.map]
        split
        · rw [hadd]
        · simp
      | fault => rfl
      | timeout => rfl
  | fault => rfl
  | timeout => rfl

theorem buildLoop_ret_iff (cfg : Config) (amb : Nat → Ambient) (fuel : Nat) :
    ∀ (victims : List Victim) (i : Nat) (schedule s : Schedule),
      buildLoop cfg amb fuel victims i schedule = .ret s ↔
        ∃ ess : List (List Chaos),
          List.Forall₂ (fun (iv : Nat × Victim) es =>
              victimEntries cfg iv.2 (amb iv.1) fuel = .ret es) (victims.enumFrom i) ess
            ∧ s = ⟨schedule.entries ++ ess.flatten⟩ := by
  intro victims
  induction victims with
  | nil =>
    intro i schedule s
    simp only [buildLoop, List.enumFrom_nil, List.forall₂_nil_left_iff]
    constructor
    · intro h
      cases h
      exact ⟨[], rfl, by simp⟩
    · rintro ⟨ess, rfl, hs⟩
      rw [hs]
      simp
  | cons v vs ih =>
    intro i schedule s
    rw [buildLoop_cons, List.enumFrom_cons]
    simp only [List.forall₂_cons_left_iff]
    cases hv : victimEntries cfg v (amb i) fuel with
    | ret es =>
      simp only []
      rw [ih (i + 1) ⟨schedule.entries ++ es⟩ s]
      constructor
      · rintro ⟨ess, hall, hs⟩
        exact ⟨es :: ess, ⟨es, ess, rfl, hall, rfl⟩, by simp [hs]⟩
      · rintro ⟨ess, ⟨e, ess', he, hall, rfl⟩, hs⟩
        cases he
        exact ⟨ess', hall, by simp [hs]⟩
    | fault =>
      simp only []
      constructor
      · intro h; cases h
      · rintro ⟨_, ⟨_, _, he, _, _⟩, _⟩; cases he
    | timeout =>
      simp only []
      constructor
      · intro h; cases h
      · rintro ⟨_, ⟨_, _, he, _, _⟩, _⟩; cases he

theorem buildLoop_congr (cfg : Config) (amb amb2 : Nat → Ambient) (fuel : Nat) :
    ∀ (victims : List Victim) (i : Nat) (schedule : Schedule),
      (∀ j, i ≤ j → amb j = amb2 j) →
      buildLoop cfg amb fuel victims i schedule = buildLoop cfg amb2 fuel victims i schedule := by
  intro victims
  induction victims with
  | nil => intro i schedule _; rfl
  | cons v vs ih =>
    intro i schedule h
    rw [buildLoop_cons, buildLoop_cons, h i (le_refl i)]
    cases victimEntries cfg v (amb2 i) fuel with
    | ret es => exact ih (i + 1) _ (fun j hj => h j (by omega))
    | fault => rfl
    | timeout => rfl

theorem buildLoop_shift (cfg : Config) (amb : Nat → Ambient) (fuel : Nat) :
    ∀ (victims : List Victim) (i : Nat) (schedule : Schedule),
      buildLoop cfg (fun j => amb (j + 1)) fuel victims i schedule
        = buildLoop cfg amb fuel victims (i + 1) schedule := by
  intro victims
  induction victims with
  | nil => intro i schedule; rfl
  | cons v vs ih =>
    intro i schedule
    rw [buildLoop_cons, buildLoop_cons]
    cases victimEntries cfg v (amb (i + 1)) fuel with
    | ret es => exact ih (i + 1) _
    | fault => rfl
    | timeout => rfl

theorem buildLoop_skip_rejected (cfg : Config) (fuel : Nat) (victim : Victim) (e : MtbfError)
    (hrej : ParseMtbf victim.Mtbf = .ret (.error e)) (after : List Victim) :
    ∀ (before : List Victim) (amb : Nat → Ambient) (i : Nat) (schedule : Schedule),
      buildLoop cfg amb fuel (before ++ victim :: after) i schedule
        = buildLoop cfg (fun j => if j < i + before.length then amb j else amb (j + 1)) fuel
            (before ++ after) i schedule := by
  intro before
  induction before with
  | nil =>
    intro amb i schedule
    simp only [List.nil_append, List.length_nil, Nat.add_zero]
    rw [buildLoop_cons, victimEntries, hrej]
    simp only [List.append_nil]
    rw [← buildLoop_shift cfg amb fuel after i]
    cases schedule with
    | mk entries =>
      apply buildLoop_congr
      intro j hj
      show amb (j + 1) = if j < i then amb j else amb (j + 1)
      rw [if_neg (by omega)]
  | cons v vs ih =>
    intro amb i schedule
    simp only [List.cons_append]
    rw [buildLoop_cons, buildLoop_cons]
    simp only [List.length_cons]
    rw [if_pos (by omega)]
    cases victimEntries cfg v (amb i) fuel with
    | ret es =>
      simp only []
      rw [ih amb (i + 1)]
      apply buildLoop_congr
      intro j _
      show (if j < i + 1 + vs.length then amb j else amb (j + 1))
        = if j < i + (vs.length + 1) then amb j else amb (j + 1)
      by_cases hlt : j < i + 1 + vs.length
      · rw [if_pos hlt, if_pos (by omega)]
      · rw [if_neg hlt, if_neg (by omega)]
    | fault => rfl
    | timeout => rfl

/-- Claim C9. With discovery succeeding, `New` returns a schedule exactly when
every victim's own step returns, the schedule being the concatenation, in
victim discovery order, of each accepted victim's candidate kill instants in
generation order; a victim whose MTBF `ParseMtbf` rejects contributes the empty
list whatever the clock and the generators are, removing it from the list of
victims leaves the outcome of `New` unchanged (the other victims keeping their
own clock readings and generators), and `New` never returns an error. -/
theorem New_schedule_concatenation (cfg : Config) (victims : List Victim)
    (amb : Nat → Ambient) (fuel : Nat) :
    (∀ s : Schedule, New cfg (.ok victims) amb fuel = .ret (.ok s) ↔
        ∃ ess : List (List Chaos),
          List.Forall₂ (fun (iv : Nat × Victim) es =>
              victimEntries cfg iv.2 (amb iv.1) fuel = .ret es) victims.enum ess
            ∧ s = ⟨ess.flatten⟩)
      ∧ (∀ (victim : Victim) (a : Ambient) (e : MtbfError),
          ParseMtbf victim.Mtbf = .ret (.error e) → victimEntries cfg victim a fuel = .ret [])
      ∧ (∀ (victim : Victim) (a : Ambient) (d : Int) (killtimes : List Time),
          ParseMtbf victim.Mtbf = .ret (.ok d) →
          CalculateKillTimes cfg victim.Mtbf a.now a.sampler fuel = .ret killtimes →
          victimEntries cfg victim a fuel = .ret [] ∨
            victimEntries cfg victim a fuel
              = .ret (killtimes.map (fun killtime => ⟨killtime, victim⟩)))
      ∧ (∀ (before after : List Victim) (victim : Victim) (e : MtbfError),
          victims = before ++ victim :: after → ParseMtbf victim.Mtbf = .ret (.error e) →
          New cfg (.ok victims) amb fuel
            = New cfg (.ok (before ++ after))
                (fun j => if j < before.length then amb j else amb (j + 1)) fuel)
      ∧ (∀ err, New cfg (.ok victims) amb fuel ≠ .ret (.error err)) := by
  refine ⟨?_, ?_, ?_, ?_, ?_⟩
  · intro s
    have h := buildLoop_ret_iff cfg amb fuel victims 0 ⟨[]⟩ s
    simp only [List.nil_append] at h
    rw [List.enum, ← h, New]
    cases buildLoop cfg amb fuel victims 0 ⟨[]⟩ with
    | ret s' =>
      simp only []
      constructor
      · intro hs; cases hs; rfl
      · intro hs; cases hs; rfl
    | fault =>
      simp only []
      constructor <;> intro hs <;> cases hs
    | timeout =>
      simp only []
      constructor <;> intro hs <;> cases hs
  · intro victim a e hp
    rw [victimEntries, hp]
  · intro victim a d killtimes hp hk
    rw [victimEntries, hp]
    simp only [hk, Outcome.map]
    split
    · right; rfl
    · left; rfl
  · intro before after victim e hv hrej
    have h := buildLoop_skip_rejected cfg fuel victim e hrej after before amb 0 ⟨[]⟩
    simp only [Nat.zero_add] at h
    rw [hv, New, New, h]
  · intro err h
    rw [New] at h
    cases hb : buildLoop cfg amb fuel victims 0 ⟨[]⟩ <;> rw [hb] at h <;> cases h

/-! ## Weekdays -/

theorem Weekday_lt (t : Time) : t.Weekday < 7 := by
  unfold Time.Weekday
  omega

theorem isWeekday_eq (t : Time) :
    isWeekday t = .ret (decide (1 ≤ t.Weekday ∧ t.Weekday ≤ 5)) := by
  have h := Weekday_lt t
  unfold isWeekday
  generalize t.Weekday = w at h
  interval_cases w <;> rfl

theorem AddDate_unixNano (t : Time) (days : Int) :
    (t.AddDate days).unixNano = t.unixNano + days * 86400000000000 := by
  unfold Time.AddDate Date Time.Date Time.localSeconds
  simp only []
  omega

theorem AddDate_Date (t : Time) (days : Int) : (t.AddDate days).Date = t.Date + days := by
  have h := AddDate_unixNano t days
  have hloc : (t.AddDate days).loc = t.loc := rfl
  unfold Time.Date Time.localSeconds
  rw [h, hloc]
  omega

theorem AddDate_Weekday (t : Time) : (t.AddDate 1).Weekday = (t.Weekday + 1) % 7 := by
  unfold Time.Weekday
  rw [AddDate_Date]
  omega

theorem AddDate_AddDate (t : Time) (a b : Int) :
    (t.AddDate a).AddDate b = t.AddDate (a + b) := by
  have h1 := AddDate_unixNano (t.AddDate a) b
  have h2 := AddDate_unixNano t a
  have h3 := AddDate_unixNano t (a + b)
  have hl1 : ((t.AddDate a).AddDate b).loc = t.loc := rfl
  have hl3 : (t.AddDate (a + b)).loc = t.loc := rfl
  cases hx : (t.AddDate a).AddDate b with
  | mk u l =>
    cases hy : t.AddDate (a + b) with
    | mk u' l' =>
      rw [hx] at h1 hl1
      rw [hy] at h3 hl3
      simp only [] at h1 h3 hl1 hl3
      rw [hl1, hl3]
      congr 1
      omega

theorem nextWeekdayLoop_step (fuel : Nat) (check : Time) :
    nextWeekdayLoop (fuel + 1) check
      = if 1 ≤ (check.AddDate 1).Weekday ∧ (check.AddDate 1).Weekday ≤ 5
        then .ret (check.AddDate 1) else nextWeekdayLoop fuel (check.AddDate 1) := by
  by_cases h : 1 ≤ (check.AddDate 1).Weekday ∧ (check.AddDate 1).Weekday ≤ 5
  · rw [nextWeekdayLoop, isWeekday_eq, if_pos h, decide_eq_true h]
    rfl
  · rw [nextWeekdayLoop, isWeekday_eq, if_neg h, decide_eq_false h]
    rfl

theorem nextWeekdayLoop_ret (t : Time) (fuel : Nat) (hfuel : 3 ≤ fuel) :
    ∃ k : Int, 1 ≤ k ∧ k ≤ 3
      ∧ nextWeekdayLoop fuel t = .ret (t.AddDate k)
      ∧ isWeekday (t.AddDate k) = .ret true
      ∧ ∀ j : Int, 1 ≤ j → j < k → isWeekday (t.AddDate j) = .ret false := by
  obtain ⟨f, rfl⟩ : ∃ f, fuel = f + 3 := ⟨fuel - 3, by omega⟩
  have h1 := AddDate_Weekday t
  have h2 := AddDate_Weekday (t.AddDate 1)
  have h3 := AddDate_Weekday (t.AddDate 2)
  rw [AddDate_AddDate] at h2 h3
  have a2 : (1 : Int) + 1 = 2 := rfl
  have a3 : (2 : Int) + 1 = 3 := rfl
  rw [a2] at h2
  rw [a3] at h3
  have hw := Weekday_lt t
  by_cases c1 : 1 ≤ (t.AddDate 1).Weekday ∧ (t.AddDate 1).Weekday ≤ 5
  · refine ⟨1, le_refl _, by decide, ?_, ?_, ?_⟩
    · rw [nextWeekdayLoop_step, if_pos c1]
    · rw [isWeekday_eq, decide_eq_true c1]
    · intro j hj1 hj2
      omega
  · by_cases c2 : 1 ≤ (t.AddDate 2).Weekday ∧ (t.AddDate 2).Weekday ≤ 5
    · refine ⟨2, by decide, by decide, ?_, ?_, ?_⟩
      · rw [nextWeekdayLoop_step, if_neg c1, nextWeekdayLoop_step, AddDate_AddDate, a2,
          if_pos c2]
      · rw [isWeekday_eq, decide_eq_true c2]
      · intro j hj1 hj2
        obtain rfl : j = 1 := by omega
        rw [isWeekday_eq, decide_eq_false c1]
    · have c3 : 1 ≤ (t.AddDate 3).Weekday ∧ (t.AddDate 3).Weekday ≤ 5 := by
        omega
      refine ⟨3, by decide, le_refl _, ?_, ?_, ?_⟩
      · rw [nextWeekdayLoop_step, if_neg c1, nextWeekdayLoop_step, AddDate_AddDate, a2,
          if_neg c2, nextWeekdayLoop_step, AddDate_AddDate, a3, if_pos c3]
      · rw [isWeekday_eq, decide_eq_true c3]
      · intro j hj1 hj2
        have hj : j = 1 ∨ j = 2 := by omega
        rcases hj with rfl | rfl
        · rw [isWeekday_eq, decide_eq_false c1]
        · rw [isWeekday_eq, decide_eq_false c2]

/-! ## Claim C10: `NextRuntime` -/

/-- Claim C10. For every current instant and every run hour `r`, with the
loop of `nextWeekday` allowed three iterations: `nextWeekday` returns, and
`NextRuntime` returns today's date at `r:00:00` when `now` falls on a weekday
and is strictly before that instant, and the date of `nextWeekday` at
`r:00:00` otherwise.  Monday 07:00 with `r = 8` gives the same Monday 08:00,
Monday 09:00 gives Tuesday 08:00 and Friday 09:00 the following Monday
08:00 (Monday 16 April 2018 is day 17637, Friday 20 April day 17641). -/
theorem NextRuntime_today_or_next_weekday (loc : Location) (r : Int) (now now2 : Time)
    (fuel : Nat) (hfuel : 3 ≤ fuel) :
    (∃ next, nextWeekday loc now2 fuel = .ret next
        ∧ NextRuntime loc r now now2 fuel
          = .ret (if isWeekday (now.In loc) = .ret true
                ∧ (now.In loc).Before (Date (now.In loc).Date r 0 0 0 loc) = true
              then Date (now.In loc).Date r 0 0 0 loc
              else Date next.Date r 0 0 0 loc))
      ∧ NextRuntime UTC 8 (Date 17637 7 0 0 0 UTC) (Date 17637 7 0 0 0 UTC) 3
          = .ret (Date 17637 8 0 0 0 UTC)
      ∧ NextRuntime UTC 8 (Date 17637 9 0 0 0 UTC) (Date 17637 9 0 0 0 UTC) 3
          = .ret (Date 17638 8 0 0 0 UTC)
      ∧ NextRuntime UTC 8 (Date 17641 9 0 0 0 UTC) (Date 17641 9 0 0 0 UTC) 3
          = .ret (Date 17644 8 0 0 0 UTC)
      ∧ (Date 17637 0 0 0 0 UTC).Weekday = 1 ∧ (Date 17641 0 0 0 0 UTC).Weekday = 5
      ∧ civil 2018 4 16 = 17637 ∧ civil 2018 4 17 = 17638 ∧ civil 2018 4 20 = 17641
      ∧ civil 2018 4 23 = 17644 := by
  refine ⟨?_, by decide, by decide, by decide, by decide, by decide, by decide, by decide,
    by decide, by decide⟩
  obtain ⟨k, _, _, hret, _, _⟩ := nextWeekdayLoop_ret (now2.In loc) fuel hfuel
  refine ⟨_, hret, ?_⟩
  unfold NextRuntime
  rw [isWeekday_eq (now.In loc)]
  simp only [nextWeekday, hret, Time.After, Time.Before, Outcome.ret.injEq,
    Bool.and_eq_true, decide_eq_true_eq]
  split <;> rfl

theorem NextRuntime_today_or_next_weekday_witness :
    (∃ next, nextWeekday ⟨3600⟩ (Date 17641 23 30 0 0 UTC) 3 = .ret next
        ∧ NextRuntime ⟨3600⟩ 8 (Date 17641 23 30 0 0 UTC) (Date 17641 23 30 0 0 UTC) 3
          = .ret (if isWeekday ((Date 17641 23 30 0 0 UTC).In ⟨3600⟩) = .ret true
                ∧ ((Date 17641 23 30 0 0 UTC).In ⟨3600⟩).Before
                    (Date ((Date 17641 23 30 0 0 UTC).In ⟨3600⟩).Date 8 0 0 0 ⟨3600⟩) = true
              then Date ((Date 17641 23 30 0 0 UTC).In ⟨3600⟩).Date 8 0 0 0 ⟨3600⟩
              else Date next.Date 8 0 0 0 ⟨3600⟩))
      ∧ NextRuntime ⟨3600⟩ 8 (Date 17641 23 30 0 0 UTC) (Date 17641 23 30 0 0 UTC) 3
          = .ret (Date 17644 8 0 0 0 ⟨3600⟩) :=
  ⟨(NextRuntime_today_or_next_weekday ⟨3600⟩ 8 (Date 17641 23 30 0 0 UTC)
      (Date 17641 23 30 0 0 UTC) 3 (by decide)).1, by decide⟩

/-! ## Claims C11 and C12: the Weekday Navigator -/

/-- Claim C11. For every current instant, `nextWeekday` terminates after at
most three one-day advances: with a budget of three iterations or more it
returns `now` plus `k` calendar days, where `1 ≤ k ≤ 3`, `isWeekday` of the
result is true and `isWeekday` is false for every smaller positive number of
days, so `k` is the least positive number of days leading to a weekday. -/
theorem nextWeekday_least_weekday (loc : Location) (now : Time) (fuel : Nat) (hfuel : 3 ≤ fuel) :
    ∃ k : Int, 1 ≤ k ∧ k ≤ 3
      ∧ nextWeekday loc now fuel = .ret ((now.In loc).AddDate k)
      ∧ ((now.In loc).AddDate k).Date = (now.In loc).Date + k
      ∧ isWeekday ((now.In loc).AddDate k) = .ret true
      ∧ ∀ j : Int, 1 ≤ j → j < k → isWeekday ((now.In loc).AddDate j) = .ret false := by
  obtain ⟨k, hk1, hk3, hret, htrue, hfalse⟩ := nextWeekdayLoop_ret (now.In loc) fuel hfuel
  exact ⟨k, hk1, hk3, hret, AddDate_Date _ _, htrue, hfalse⟩

theorem nextWeekday_least_weekday_witness :
    ∃ k : Int, 1 ≤ k ∧ k ≤ 3
      ∧ nextWeekday UTC (Date (civil 2018 4 20) 9 0 0 0 UTC) 3
          = .ret (((Date (civil 2018 4 20) 9 0 0 0 UTC).In UTC).AddDate k)
      ∧ (((Date (civil 2018 4 20) 9 0 0 0 UTC).In UTC).AddDate k).Date
          = ((Date (civil 2018 4 20) 9 0 0 0 UTC).In UTC).Date + k
      ∧ isWeekday (((Date (civil 2018 4 20) 9 0 0 0 UTC).In UTC).AddDate k) = .ret true
      ∧ ∀ j : Int, 1 ≤ j → j < k →
          isWeekday (((Date (civil 2018 4 20) 9 0 0 0 UTC).In UTC).AddDate j) = .ret false :=
  nextWeekday_least_weekday UTC (Date (civil 2018 4 20) 9 0 0 0 UTC) 3 (by decide)

/-- Claim C12. For every instant `t`, `isWeekday t` returns true when the
weekday of `t` is Monday to Friday (1 to 5) and false when it is Saturday or
Sunday (6 or 0); a weekday is always below 7, so the fatal branch is never
taken.  Monday 16 April 2018 plus 0 to 4 days gives true, plus 5 and 6 days
gives false. -/
theorem isWeekday_iff_monday_to_friday (t : Time) :
    t.Weekday < 7
      ∧ isWeekday t ≠ .fault
      ∧ (isWeekday t = .ret true ↔ 1 ≤ t.Weekday ∧ t.Weekday ≤ 5)
      ∧ (isWeekday t = .ret false ↔ t.Weekday = 6 ∨ t.Weekday = 0)
      ∧ (Date (civil 2018 4 16) 0 0 0 0 UTC).Weekday = 1
      ∧ isWeekday (Date (civil 2018 4 16) 0 0 0 0 UTC) = .ret true
      ∧ isWeekday ((Date (civil 2018 4 16) 0 0 0 0 UTC).Add (Hour * 24)) = .ret true
      ∧ isWeekday ((Date (civil 2018 4 16) 0 0 0 0 UTC).Add (Hour * 24 * 2)) = .ret true
      ∧ isWeekday ((Date (civil 2018 4 16) 0 0 0 0 UTC).Add (Hour * 24 * 3)) = .ret true
      ∧ isWeekday ((Date (civil 2018 4 16) 0 0 0 0 UTC).Add (Hour * 24 * 4)) = .ret true
      ∧ isWeekday ((Date (civil 2018 4 16) 0 0 0 0 UTC).Add (Hour * 24 * 5)) = .ret false
      ∧ isWeekday ((Date (civil 2018 4 16) 0 0 0 0 UTC).Add (Hour * 24 * 6)) = .ret false := by
  have hw := Weekday_lt t
  have he := isWeekday_eq t
  refine ⟨hw, ?_, ?_, ?_, by decide, by decide, by decide, by decide, by decide, by decide,
    by decide, by decide⟩
  · rw [he]
    intro h
    cases h
  · rw [he]
    constructor
    · intro h
      have := Outcome.ret.inj h
      exact of_decide_eq_true this
    · intro h
      rw [decide_eq_true h]
  · rw [he]
    constructor
    · intro h
      have h1 := of_decide_eq_false (Outcome.ret.inj h)
      omega
    · intro h
      rw [decide_eq_false (by omega)]

/-! ## Claim C13: the fallback of `RandomTimeInRange` -/

/-- Claim C13. For every MTBF string that `ParseMtbf` rejects,
`RandomTimeInRange` returns exactly one instant, the current time plus
`24 * 365 * 10` hours, whatever the working hours and the location are; the
result is the same for every generator and every iteration budget, so no
random value is drawn. -/
theorem RandomTimeInRange_rejected_mtbf (mtbf : GoString) (e : MtbfError) (startHour endHour : Int)
    (loc : Location) (now : Time) (r : Rand) (fuel : Nat)
    (hrej : ParseMtbf mtbf = .ret (.error e)) :
    RandomTimeInRange mtbf startHour endHour loc now r fuel
        = .ret [now.Add (24 * 365 * 10 * Hour)]
      ∧ (now.Add (24 * 365 * 10 * Hour)).unixNano = now.unixNano + 87600 * Hour := by
  constructor
  · unfold RandomTimeInRange
    rw [hrej]
    have h : wrap64 (wrap64 (24 * 365 * 10) * Hour) = 24 * 365 * 10 * Hour := by decide
    simp only [h]
  · unfold Time.Add Hour
    simp only []
    omega

theorem RandomTimeInRange_rejected_mtbf_witness :
    RandomTimeInRange "30s".toList 8 16 UTC (Date (civil 2018 4 16) 9 0 0 0 UTC)
          ⟨fun _ => 7000⟩ 0
        = .ret [(Date (civil 2018 4 16) 9 0 0 0 UTC).Add (24 * 365 * 10 * Hour)]
      ∧ ((Date (civil 2018 4 16) 9 0 0 0 UTC).Add (24 * 365 * 10 * Hour)).unixNano
        = (Date (civil 2018 4 16) 9 0 0 0 UTC).unixNano + 87600 * Hour :=
  RandomTimeInRange_rejected_mtbf "30s".toList .belowMinimum 8 16 UTC
    (Date (civil 2018 4 16) 9 0 0 0 UTC) ⟨fun _ => 7000⟩ 0 (by decide)

/-! ## Claim C14: the empty string -/

/-- Claim C14 fails on the code at the empty string: `ParseMtbf` reads the
last byte before looking at the length, which is a run-time fault there, not
an invalid-format error.  On every non-empty string it does return a duration
or an error. -/
theorem ParseMtbf_empty_string_faults :
    ParseMtbf "".toList = .fault
      ∧ ∀ s : GoString, s ≠ [] →
          (∃ d, ParseMtbf s = .ret (.ok d)) ∨ (∃ e, ParseMtbf s = .ret (.error e)) := by
  refine ⟨by decide, ?_⟩
  intro s hs
  unfold ParseMtbf
  rw [List.getLast?_eq_getLast _ hs]
  simp only []
  split
  · exact Or.inr ⟨_, rfl⟩
  · split
    · exact Or.inr ⟨_, rfl⟩
    · exact Or.inl ⟨_, rfl⟩

/-! ## Claim C16: large numbers of days -/

theorem leadingInt_all_digits (ds : List Char) (hds : ∀ c ∈ ds, c ∈ digitChars) :
    ∀ (x v : Nat) (rest : GoString), leadingInt ds x = some (v, rest) → rest = [] := by
  induction ds with
  | nil =>
    intro x v rest h
    simp only [leadingInt, Option.some.injEq, Prod.mk.injEq] at h
    exact h.2.symm
  | cons c t ih =>
    intro x v rest h
    have hc := (digitChars_facts c (hds c (List.mem_cons_self _ _))).1
    rw [leadingInt, if_neg hc] at h
    split at h
    · cases h
    · split at h
      · cases h
      · exact ih (fun c h => hds c (List.mem_cons_of_mem _ h)) _ v rest h

theorem ParseDuration_none_of_parseGroup (c0 : Char) (t : GoString)
    (h1 : c0 ≠ '-') (h2 : c0 ≠ '+') (hlen : t ≠ [])
    (hgrp : parseGroup (c0 :: t) = none) : ParseDuration (c0 :: t) = none := by
  have e1 : ((c0 :: t).head? == some '-') = false := by simp [h1]
  have e2 : ((c0 :: t).head? == some '+') = false := by simp [h2]
  have e3 : ¬ (c0 :: t = ['0']) := by
    intro h
    simp only [List.cons.injEq] at h
    exact hlen h.2
  unfold ParseDuration
  simp only [e1, e2, Bool.false_eq_true, or_self, if_false, e3, List.length_cons,
    parseGroups, hgrp]
  simp

theorem ParseDuration_toDigits_unit_overflow (m : Nat) (c : Char) (unit : Nat)
    (hc1 : c < '0' ∨ '9' < c) (hc2 : c ≠ '.') (hmap : unitMap [c] = some unit)
    (hm : m ≤ 2 ^ 63) (hover : 2 ^ 63 / unit < m) :
    ParseDuration (Nat.toDigits 10 m ++ [c]) = none := by
  obtain ⟨hne, hmem, _⟩ := toDigits_spec m
  obtain ⟨c0, t, hct⟩ := List.exists_cons_of_ne_nil hne
  have hc0 := digitChars_facts c0 (hmem c0 (by rw [hct]; exact List.mem_cons_self _ _))
  have hli := leadingInt_toDigits m hm c hc1
  have hunit : isUnitChar c = true := by
    have h1 : (c == '.') = false := by simpa using hc2
    have h2 : (decide ('0' ≤ c) && decide (c ≤ '9')) = false := by
      rcases hc1 with h | h
      · have : ¬ ('0' ≤ c) := not_le.mpr h
        simp [this]
      · have : ¬ (c ≤ '9') := not_le.mpr h
        simp [this]
    simp [isUnitChar, h1, h2]
  have hfrac : fractionPart [c] = ((0 : Nat), F64.ofInt 1, [c], false) := by
    unfold fractionPart
    split
    · rename_i s2 heq
      simp only [List.cons.injEq] at heq
      exact absurd heq.1 hc2
    · rfl
  rw [hct] at hli ⊢
  simp only [List.cons_append] at hli ⊢
  apply ParseDuration_none_of_parseGroup c0 (t ++ [c]) hc0.2.2.2.1 hc0.2.2.2.2.1 (by simp)
  unfold parseGroup
  simp only [hc0.2.2.2.2.2.2.2, Bool.not_true, Bool.false_eq_true, if_false, hli, hfrac]
  simp [hunit, hmap]
  have h63 : (9223372036854775808 : Nat) = 2 ^ 63 := by norm_num
  rw [h63]
  exact hover

theorem ParseDuration_toDigits_bare (n : Nat) (hn : 10 ≤ n) :
    ParseDuration (Nat.toDigits 10 n) = none := by
  obtain ⟨hne, hmem, _⟩ := toDigits_spec n
  have hstep := toDigits_step n
  rw [if_neg (by omega)] at hstep
  obtain ⟨hne1, _, _⟩ := toDigits_spec (n / 10)
  obtain ⟨c0, t, hct⟩ := List.exists_cons_of_ne_nil hne
  have hc0 := digitChars_facts c0 (hmem c0 (by rw [hct]; exact List.mem_cons_self _ _))
  have ht : t ≠ [] := by
    intro h
    have hl := congrArg List.length hct
    rw [hstep, h] at hl
    obtain ⟨c1, t1, hct1⟩ := List.exists_cons_of_ne_nil hne1
    rw [hct1] at hl
    simp at hl
  rw [hct]
  apply ParseDuration_none_of_parseGroup c0 t hc0.2.2.2.1 hc0.2.2.2.2.1 ht
  unfold parseGroup
  simp only [hc0.2.2.2.2.2.2.2, Bool.not_true, Bool.false_eq_true, if_false]
  cases hli : leadingInt (c0 :: t) 0 with
  | none => rfl
  | some p =>
    obtain ⟨v, rest⟩ := p
    have hrest := leadingInt_all_digits (c0 :: t) (by rw [← hct]; exact hmem) 0 v rest hli
    subst hrest
    have hfrac : fractionPart [] = ((0 : Nat), F64.ofInt 1, ([] : GoString), false) := rfl
    simp [hfrac]

/-- Claim C16, as stated, fails: `106752d` is one day more than a
`time.Duration` can hold and is rejected, and for `768614336404564651d` the
multiplication by 24 wraps around in 64 bits, so the result is 8 hours. -/
theorem ParseMtbf_large_days_not_exact :
    ParseMtbf "106752d".toList = .ret (.error .invalidFormat)
      ∧ ParseMtbf "768614336404564651d".toList = .ret (.ok (8 * Hour)) := by
  decide

/-- Claim C16, amended. The 64-bit nanosecond duration bounds what `ParseMtbf`
accepts: for every positive integer `n` up to 106751 the decimal `n` followed
by `d` returns exactly `n` days; for a larger `n` it is rejected with the
invalid-format error, as long as `n * 24` stays within the 64-bit `int` or `n`
itself is outside it. -/
theorem ParseMtbf_days_up_to_duration_range (n : Nat) (hpos : 0 < n) :
    (n ≤ 106751 →
        ParseMtbf (Nat.toDigits 10 n ++ ['d']) = .ret (.ok ((n : Int) * 24 * Hour)))
      ∧ (106751 < n → n * 24 < 2 ^ 63 ∨ 2 ^ 63 ≤ n →
        ParseMtbf (Nat.toDigits 10 n ++ ['d']) = .ret (.error .invalidFormat)) := by
  have hlast : (Nat.toDigits 10 n ++ ['d']).getLast? = some 'd' := by simp
  constructor
  · intro hn
    apply ParseMtbf_of_ParseDuration _ 'd' _ hlast
    · rw [normalizeMtbf_integer _ 'd' n (by simp [TrimRight_toDigits_d]) (by omega)]
      rw [ParseDuration_toDigits_unit (n * 24) 'h' 3600000000000 (by decide) (by decide)
        (by decide) (by decide) (by omega)]
      unfold Hour
      push_cast
      rfl
    · unfold Minute Hour; omega
  · intro hn hcase
    unfold ParseMtbf
    rw [hlast]
    simp only []
    rcases hcase with hsmall | hbig
    · rw [normalizeMtbf_integer _ 'd' n (by simp [TrimRight_toDigits_d]) hsmall]
      rw [ParseDuration_toDigits_unit_overflow (n * 24) 'h' 3600000000000 (by decide)
        (by decide) (by decide) (by omega) (by omega)]
    · have hatoi : Atoi (Nat.toDigits 10 n) = none := by
        obtain ⟨hne, hmem, hval⟩ := toDigits_spec n
        obtain ⟨c, t, hct⟩ := List.exists_cons_of_ne_nil hne
        have hc := digitChars_facts c (hmem c (by rw [hct]; exact List.mem_cons_self _ _))
        have hall : (Nat.toDigits 10 n).all Char.isDigit = true := by
          rw [List.all_eq_true]
          intro x hx
          exact (digitChars_facts x (hmem x hx)).2.1
        unfold Atoi
        have h1 : ((Nat.toDigits 10 n).head? == some '-') = false := by
          rw [hct]; simp [hc.2.2.2.1]
        have h2 : ((Nat.toDigits 10 n).head? == some '+') = false := by
          rw [hct]; simp [hc.2.2.2.2.1]
        simp only [h1, h2, hall]
        simp [hne, hval]
        omega
      have hnorm : normalizeMtbf (Nat.toDigits 10 n ++ ['d']) 'd' = Nat.toDigits 10 n := by
        unfold normalizeMtbf
        simp only [if_true, TrimRight_toDigits_d, hatoi]
      rw [hnorm, ParseDuration_toDigits_bare n (by omega)]

theorem ParseMtbf_days_up_to_duration_range_witness :
    ParseMtbf "106751d".toList = .ret (.ok (((106751 : Nat) : Int) * 24 * Hour))
      ∧ ParseMtbf "106752d".toList = .ret (.error .invalidFormat) :=
  ⟨(ParseMtbf_days_up_to_duration_range 106751 (by decide)).1 (by decide),
    (ParseMtbf_days_up_to_duration_range 106752 (by decide)).2 (by decide)
      (Or.inl (by decide))⟩

/-! ## Claim C15: the accepted strings -/

theorem TrimRight_append_replicate (s : GoString) (c : Char) (k : Nat)
    (hlast : s.getLast? = some c) (hc : c ≠ 'd') :
    TrimRight (s ++ List.replicate k 'd') 'd' = s := by
  have hne : s ≠ [] := by
    intro h
    rw [h] at hlast
    cases hlast
  have hrev : s.reverse = c :: s.dropLast.reverse := by
    have h1 : s = s.dropLast ++ [c] := by
      have := List.dropLast_append_getLast? c hlast
      exact this.symm
    conv_lhs => rw [h1]
    simp
  have hdrop : ∀ (j : Nat) (l : List Char),
      (List.replicate j 'd' ++ c :: l).dropWhile (fun x => x == 'd') = c :: l := by
    intro j l
    induction j with
    | zero =>
      have : (c == 'd') = false := by simpa using hc
      simp [List.dropWhile_cons, this]
    | succ j ih =>
      simp only [List.replicate_succ, List.cons_append, List.dropWhile_cons, beq_self_eq_true,
        if_true]
      exact ih
  unfold TrimRight
  rw [List.reverse_append, List.reverse_replicate, hrev, hdrop, ← hrev, List.reverse_reverse]

theorem ParseMtbf_only_d (j : Nat) :
    ParseMtbf (List.replicate (j + 1) 'd') = .ret (.error .invalidFormat) := by
  have hlast : (List.replicate (j + 1) 'd').getLast? = some 'd' := by
    rw [List.replicate_succ']
    simp
  have hdrop : ∀ n : Nat, (List.replicate n 'd').dropWhile (fun x => x == 'd') = [] := by
    intro n
    induction n with
    | zero => rfl
    | succ n ih =>
      simp only [List.replicate_succ, List.dropWhile_cons, beq_self_eq_true, if_true]
      exact ih
  have htrim : TrimRight (List.replicate (j + 1) 'd') 'd' = [] := by
    unfold TrimRight
    rw [List.reverse_replicate, hdrop]
    rfl
  have hnorm : normalizeMtbf (List.replicate (j + 1) 'd') 'd' = [] := by
    unfold normalizeMtbf
    simp only [if_true, htrim]
    rfl
  have hpd : ParseDuration [] = none := by decide
  unfold ParseMtbf
  rw [hlast]
  simp only [hnorm, hpd]

/-- Claim C15, as stated, fails: `2dd` is accepted as 48 hours, and `2hd` is
accepted as 2 hours, the stripped value not being multiplied by 24. -/
theorem ParseMtbf_accepts_repeated_and_mixed_d :
    ParseMtbf "2dd".toList = .ret (.ok (48 * Hour))
      ∧ ParseMtbf "2hd".toList = .ret (.ok (2 * Hour)) := by
  decide

/-- Claim C15, amended. `ParseMtbf` accepts exactly the non-empty strings
whose normalized form is a standard duration expression of at least one
minute; normalization removes every trailing `d` and multiplies by 24 hours
only when what remains is a decimal integer.  So a string not ending in `d`,
followed by one or more `d`, is treated exactly like the string itself: `2dd`
and `2d` give 48 hours like `2`, and `2hd` gives 2 hours like `2h`.  A
rejected string gets the invalid-format error exactly when its normalized form
does not parse; a string made only of `d` is rejected in this way. -/
theorem ParseMtbf_ignores_trailing_d (s : GoString) (c : Char) (k : Nat)
    (hlast : s.getLast? = some c) (hc : c ≠ 'd') :
    ParseMtbf (s ++ List.replicate (k + 1) 'd') = ParseMtbf s
      ∧ normalizeMtbf (s ++ List.replicate (k + 1) 'd') 'd'
          = (match Atoi s with
            | some v => formatInt (wrap64 (v * 24)) ++ ['h']
            | none => s)
      ∧ (∀ d, ParseMtbf s = .ret (.ok d) ↔
          ParseDuration (normalizeMtbf s c) = some d ∧ Minute ≤ d)
      ∧ (ParseMtbf s = .ret (.error .invalidFormat) ↔ ParseDuration (normalizeMtbf s c) = none)
      ∧ ParseMtbf "2d".toList = .ret (.ok (48 * Hour))
      ∧ ParseMtbf "2".toList = .ret (.ok (48 * Hour))
      ∧ ParseMtbf "2h".toList = .ret (.ok (2 * Hour))
      ∧ ParseMtbf "1h30m".toList = .ret (.ok (90 * Minute))
      ∧ ParseMtbf "2x".toList = .ret (.error .invalidFormat)
      ∧ ParseMtbf "d".toList = .ret (.error .invalidFormat)
      ∧ (∀ j : Nat, ParseMtbf (List.replicate (j + 1) 'd') = .ret (.error .invalidFormat)) := by
  have htrim := TrimRight_append_replicate s c (k + 1) hlast hc
  have hlast2 : (s ++ List.replicate (k + 1) 'd').getLast? = some 'd' := by
    rw [List.replicate_succ', ← List.append_assoc]
    simp
  have hnorm : normalizeMtbf (s ++ List.replicate (k + 1) 'd') 'd' = normalizeMtbf s c := by
    unfold normalizeMtbf
    simp only [if_true, htrim, if_neg hc]
  refine ⟨?_, ?_, ?_, ?_, by decide, by decide, by decide, by decide, by decide, by decide,
    ParseMtbf_only_d⟩
  · unfold ParseMtbf
    rw [hlast2, hlast]
    simp only [hnorm]
  · rw [hnorm]
    unfold normalizeMtbf
    simp only [if_neg hc]
  · intro d
    unfold ParseMtbf
    rw [hlast, one_minute_eq]
    simp only []
    constructor
    · intro h
      split at h
      · cases h
      · rename_i d0 hp
        split at h
        · cases h
        · rename_i hlt
          cases h
          exact ⟨hp, not_lt.mp hlt⟩
    · rintro ⟨hp, hd⟩
      rw [hp]
      simp only []
      rw [if_neg (not_lt.mpr hd)]
  · unfold ParseMtbf
    rw [hlast]
    simp only []
    constructor
    · intro h
      split at h
      · rename_i hp
        exact hp
      · split at h <;> cases h
    · intro hp
      rw [hp]

theorem ParseMtbf_ignores_trailing_d_witness :
    ParseMtbf ("2h".toList ++ List.replicate (1 + 1) 'd') = ParseMtbf "2h".toList
      ∧ ParseMtbf ("2".toList ++ List.replicate (0 + 1) 'd') = ParseMtbf "2".toList :=
  ⟨(ParseMtbf_ignores_trailing_d "2h".toList 'h' 1 (by decide) (by decide)).1,
    (ParseMtbf_ignores_trailing_d "2".toList '2' 0 (by decide) (by decide)).1⟩

/-! ## Claim C17: rendering -/

theorem appendRows_eq (format : GoString → Time → GoString) :
    ∀ (entries : List Chaos) (schedString : List GoString),
      appendRows format entries schedString
        = schedString ++ entries.map (fun chaos =>
            "\t".toList ++ chaos.victim.Kind ++ "\t".toList ++ chaos.victim.Namespace
              ++ "\t".toList ++ chaos.victim.Name ++ "\t\t".toList
              ++ format DateFormat chaos.killAt) := by
  intro entries
  induction entries with
  | nil => intro schedString; simp [appendRows]
  | cons chaos entries ih =>
    intro schedString
    rw [appendRows, ih]
    have hrow : Sprintf RowFormat [chaos.victim.Kind, chaos.victim.Namespace,
        chaos.victim.Name, format DateFormat chaos.killAt]
        = "\t".toList ++ chaos.victim.Kind ++ "\t".toList ++ chaos.victim.Namespace
            ++ "\t".toList ++ chaos.victim.Name ++ "\t\t".toList
            ++ format DateFormat chaos.killAt := by
      simp [RowFormat, Sprintf]
    rw [hrow]
    simp

/-- Claim C17. For every schedule with `n` entries and an empty
`KUBE_MONKEY_ID`, `String()` is the newline-join of the Today banner, then the
single no-terminations line when `n = 0` and otherwise `HeaderRow`, `SepRow`
and exactly `n` rows, the `i`-th row being built from the `i`-th entry's kind,
namespace, name and formatted kill time in the fixed layout, then the End
banner; with a non-empty identifier one line `KubeMonkey ID: <id>` follows the
banner directly; the call leaves the schedule unchanged. -/
theorem Schedule_String_layout (s : Schedule) (kubeMonkeyID : GoString)
    (format : GoString → Time → GoString) :
    (s.String kubeMonkeyID format).2 = s
      ∧ (s.String kubeMonkeyID format).1 = Join (s.lines kubeMonkeyID format) "\n".toList
      ∧ s.lines kubeMonkeyID format
          = [Today]
            ++ (if kubeMonkeyID = [] then [] else ["\tKubeMonkey ID: ".toList ++ kubeMonkeyID])
            ++ (if s.entries = [] then [NoTermination]
                else HeaderRow :: SepRow :: s.entries.map (fun chaos =>
                  "\t".toList ++ chaos.victim.Kind ++ "\t".toList ++ chaos.victim.Namespace
                    ++ "\t".toList ++ chaos.victim.Name ++ "\t\t".toList
                    ++ format DateFormat chaos.killAt))
            ++ [End]
      ∧ (s.entries.map (fun chaos =>
            "\t".toList ++ chaos.victim.Kind ++ "\t".toList ++ chaos.victim.Namespace
              ++ "\t".toList ++ chaos.victim.Name ++ "\t\t".toList
              ++ format DateFormat chaos.killAt)).length = s.entries.length
      ∧ (Schedule.String ⟨[]⟩ [] format).1
          = "\t********** Today\x27s schedule **********\n\tNo terminations scheduled\n\t********** End of schedule **********".toList := by
  refine ⟨rfl, rfl, ?_, by simp, rfl⟩
  have hid : Sprintf KubeMonkeyID [kubeMonkeyID] = "\tKubeMonkey ID: ".toList ++ kubeMonkeyID := by
    simp [KubeMonkeyID, Sprintf]
  unfold Schedule.lines
  simp only [List.nil_append, hid, appendRows_eq, List.length_eq_zero]
  by_cases h1 : kubeMonkeyID = [] <;> by_cases h2 : s.entries = [] <;> simp [h1, h2]

/-! ## Claims C18 and C19: faults and termination of the sampling loop -/

theorem RandomOffsetTime_eq (r : Rand) (startTime : Time) (timeWindow : Int)
    (hlo : Second ≤ timeWindow) (hhi : timeWindow ≤ maxInt64) :
    RandomOffsetTime r startTime timeWindow
      = .ret (⟨startTime.unixNano + (r.draws 0 : Int) % (timeWindow / Second) * Second,
          startTime.loc⟩, r.next) := by
  unfold Second maxInt64 at *
  have hdiv : Int.tdiv timeWindow 1000000000 = timeWindow / 1000000000 :=
    Int.tdiv_eq_ediv (by omega) (by omega)
  have hpos : 0 < timeWindow / 1000000000 := by omega
  have h1 := Int.emod_lt_of_pos (r.draws 0 : Int) hpos
  have h2 := Int.emod_nonneg (r.draws 0 : Int) (show timeWindow / 1000000000 ≠ 0 by omega)
  unfold RandomOffsetTime Int63n Second
  rw [hdiv, if_neg (by omega)]
  simp only [Time.Add]
  rw [wrap64_of_range _ (by omega) (by omega)]

theorem Add_Sub_self (t : Time) (d : Int) (h1 : minInt64 ≤ d) (h2 : d ≤ maxInt64) :
    (t.Add d).Sub t = d := by
  unfold Time.Sub Time.Add
  simp only []
  rw [if_neg (by omega), if_neg (by omega)]
  omega

theorem sampleLoop_negative_duration (timeDuration timeWindow : Int)
    (todayStartTime todayEndTime : Time) (hD : timeDuration < Second)
    (hDmin : minInt64 ≤ timeDuration) (hA : timeDuration < timeWindow) (fuel : Nat) (r : Rand)
    (startTime : Time) (times : List Time) :
    sampleLoop timeDuration timeWindow todayStartTime todayEndTime (fuel + 1) r startTime times
      = .fault := by
  have hmax : timeDuration ≤ maxInt64 := by
    unfold Second at hD
    unfold maxInt64
    omega
  rw [sampleLoop, if_pos hA, Add_Sub_self _ _ hDmin hmax, RandomOffsetTime_fault _ _ _ hD]

theorem sampleLoop_no_fault (timeDuration timeWindow : Int) (todayStartTime todayEndTime : Time)
    (hD : Second ≤ timeDuration) (hDmax : timeDuration ≤ maxInt64)
    (hW : Second ≤ timeWindow) (hWmax : timeWindow ≤ maxInt64) :
    ∀ (fuel : Nat) (r : Rand) (startTime : Time) (times : List Time),
      sampleLoop timeDuration timeWindow todayStartTime todayEndTime fuel r startTime times
        ≠ .fault := by
  have hDmin : minInt64 ≤ timeDuration := by
    unfold Second at hD
    unfold minInt64
    omega
  intro fuel
  induction fuel with
  | zero =>
    intro r startTime times h
    simp [sampleLoop] at h
  | succ fuel ih =>
    intro r startTime times h
    rw [sampleLoop] at h
    split at h
    · rw [Add_Sub_self _ _ hDmin hDmax, RandomOffsetTime_eq _ _ _ hD hDmax] at h
      simp only [] at h
      split at h
      · exact ih _ _ _ h
      · cases h
    · split at h
      · rw [RandomOffsetTime_eq _ _ _ hW hWmax] at h
        cases h
      · cases h

/-- Claim C18 fails on the code at MTBF `2000000h`: `ParseMtbf` accepts it,
but the doubled duration wraps around in 64 bits to a negative value, the
loop takes the Regime A branch and calls `RandomOffsetTime` with that negative
window, and `Int63n` faults, for every clock reading and generator.  When the
doubled duration does fit, no call faults. -/
theorem RandomTimeInRange_doubling_overflow_faults (now : Time) (r : Rand) (fuel : Nat) :
    ParseMtbf "2000000h".toList = .ret (.ok (2000000 * Hour))
      ∧ wrap64 (2000000 * Hour * 2) = -4046744073709551616
      ∧ RandomTimeInRange "2000000h".toList 8 16 UTC now r (fuel + 1) = .fault
      ∧ (∀ (mtbf : GoString) (d startHour endHour : Int) (loc : Location) (budget : Nat),
          ParseMtbf mtbf = .ret (.ok d) → d * 2 ≤ maxInt64 → startHour < endHour →
          wrap64 (d * 2) = d * 2 ∧ Second ≤ d * 2
            ∧ RandomTimeInRange mtbf startHour endHour loc now r budget ≠ .fault) := by
  have hp : ParseMtbf "2000000h".toList = .ret (.ok (2000000 * Hour)) := by decide
  have hw : wrap64 (2000000 * Hour * 2) = -4046744073709551616 := by decide
  refine ⟨hp, hw, ?_, ?_⟩
  · rw [RandomTimeInRange_parsed _ _ _ _ _ _ _ _ hp, hw]
    have hwin := Date_window (now.In UTC).Date 8 16 UTC (by decide)
    apply sampleLoop_negative_duration
    · decide
    · decide
    · have := hwin.1
      unfold Second at this
      omega
  · intro mtbf d startHour endHour loc budget hparse hfit hhours
    have hd := ParseMtbf_range mtbf d hparse
    have hW := Time_Sub_range (Date (now.In loc).Date endHour 0 0 0 loc)
      (Date (now.In loc).Date startHour 0 0 0 loc)
    have hwin := Date_window (now.In loc).Date startHour endHour loc hhours
    have hwrap : wrap64 (d * 2) = d * 2 := by
      unfold Minute maxInt64 at *
      exact wrap64_of_range _ (by omega) (by omega)
    have hsec : Second ≤ d * 2 := by
      unfold Minute at hd
      unfold Second
      omega
    refine ⟨hwrap, hsec, ?_⟩
    rw [RandomTimeInRange_parsed _ _ _ _ _ _ _ _ hparse, hwrap]
    exact sampleLoop_no_fault _ _ _ _ hsec hfit hwin.1 hW.2 _ _ _ _

theorem drawnInstant_succ (r : Rand) (seconds : Int) (start : Time) (i : Nat) :
    drawnInstant r seconds start (i + 1)
      = drawnInstant r.next seconds
          ⟨start.unixNano + (r.draws 0 : Int) % seconds * Second, start.loc⟩ i := rfl

theorem sampleLoop_regimeA_returns_iff (timeDuration timeWindow : Int)
    (todayStartTime todayEndTime : Time) (hA : timeDuration < timeWindow)
    (hD : Second ≤ timeDuration) (hDmax : timeDuration ≤ maxInt64) :
    ∀ (fuel : Nat) (r : Rand) (startTime : Time) (times : List Time),
      (∃ res, sampleLoop timeDuration timeWindow todayStartTime todayEndTime fuel r startTime
          times = .ret res) ↔
        ∃ i, 1 ≤ i ∧ i ≤ fuel
          ∧ (drawnInstant r (timeDuration / Second) startTime i).Before todayEndTime = false
          ∧ ∀ j, 1 ≤ j → j < i →
              (drawnInstant r (timeDuration / Second) startTime j).Before todayEndTime
                = true := by
  have hDmin : minInt64 ≤ timeDuration := by
    unfold Second at hD
    unfold minInt64
    omega
  intro fuel
  induction fuel with
  | zero =>
    intro r startTime times
    constructor
    · rintro ⟨res, h⟩
      simp [sampleLoop] at h
    · rintro ⟨i, h1, h0, _⟩
      omega
  | succ fuel ih =>
    intro r startTime times
    rw [sampleLoop, if_pos hA, Add_Sub_self _ _ hDmin hDmax,
      RandomOffsetTime_eq _ _ _ hD hDmax]
    simp only []
    have hfirst : drawnInstant r (timeDuration / Second) startTime 1
        = ⟨startTime.unixNano + (r.draws 0 : Int) % (timeDuration / Second) * Second,
            startTime.loc⟩ := rfl
    by_cases hb : (⟨startTime.unixNano + (r.draws 0 : Int) % (timeDuration / Second) * Second,
        startTime.loc⟩ : Time).Before todayEndTime = true
    · rw [if_pos hb, ih]
      constructor
      · rintro ⟨i, h1, hle, hstop, hbefore⟩
        refine ⟨i + 1, by omega, by omega, ?_, ?_⟩
        · rw [drawnInstant_succ]
          exact hstop
        · intro j hj1 hj2
          obtain ⟨j, rfl⟩ : ∃ j0, j = j0 + 1 := ⟨j - 1, by omega⟩
          rw [drawnInstant_succ]
          cases j with
          | zero => exact hb
          | succ j => exact hbefore (j + 1) (by omega) (by omega)
      · rintro ⟨i, h1, hle, hstop, hbefore⟩
        obtain ⟨i, rfl⟩ : ∃ i0, i = i0 + 1 := ⟨i - 1, by omega⟩
        rw [drawnInstant_succ] at hstop
        cases i with
        | zero =>
          change (⟨startTime.unixNano + (r.draws 0 : Int) % (timeDuration / Second) * Second,
            startTime.loc⟩ : Time).Before todayEndTime = false at hstop
          rw [hb] at hstop
          cases hstop
        | succ i =>
          refine ⟨i + 1, by omega, by omega, hstop, ?_⟩
          intro j hj1 hj2
          have := hbefore (j + 1) (by omega) (by omega)
          rw [drawnInstant_succ] at this
          exact this
    · rw [if_neg hb]
      have hb2 : (⟨startTime.unixNano + (r.draws 0 : Int) % (timeDuration / Second) * Second,
          startTime.loc⟩ : Time).Before todayEndTime = false := by
        simpa using hb
      constructor
      · intro _
        refine ⟨1, le_refl _, by omega, ?_, ?_⟩
        · rw [hfirst]
          exact hb2
        · intro j hj1 hj2
          omega
      · intro _
        exact ⟨times, rfl⟩

theorem drawnInstant_zero_draws (seconds : Int) :
    ∀ (i : Nat) (r : Rand) (start : Time), (∀ j, r.draws j = 0) →
      drawnInstant r seconds start i = start := by
  intro i
  induction i with
  | zero => intro r start _; rfl
  | succ i ih =>
    intro r start h
    rw [drawnInstant_succ, ih r.next _ (fun j => h (j + 1)), h 0]
    cases start with
    | mk u l => simp

theorem RandomTimeInRange_regimeA_iff (mtbf : GoString) (startHour endHour : Int)
    (loc : Location) (now : Time) (r : Rand) (fuel : Nat) (d : Int)
    (hparse : ParseMtbf mtbf = .ret (.ok d))
    (hA : d * 2 < (Date (now.In loc).Date endHour 0 0 0 loc).Sub
      (Date (now.In loc).Date startHour 0 0 0 loc)) :
    ((∃ times, RandomTimeInRange mtbf startHour endHour loc now r fuel = .ret times) ↔
        ∃ i, 1 ≤ i ∧ i ≤ fuel
          ∧ (drawnInstant r (d * 2 / Second) (now.In loc) i).Before
              (Date (now.In loc).Date endHour 0 0 0 loc) = false
          ∧ ∀ j, 1 ≤ j → j < i →
              (drawnInstant r (d * 2 / Second) (now.In loc) j).Before
                (Date (now.In loc).Date endHour 0 0 0 loc) = true)
      ∧ RandomTimeInRange mtbf startHour endHour loc now r fuel ≠ .fault := by
  have hd := ParseMtbf_range mtbf d hparse
  have hW := Time_Sub_range (Date (now.In loc).Date endHour 0 0 0 loc)
    (Date (now.In loc).Date startHour 0 0 0 loc)
  have hwrap : wrap64 (d * 2) = d * 2 := by
    unfold Minute maxInt64 at *
    exact wrap64_of_range _ (by omega) (by omega)
  have hsec : Second ≤ d * 2 := by
    unfold Minute at hd
    unfold Second
    omega
  have hmax : d * 2 ≤ maxInt64 := by omega
  rw [RandomTimeInRange_parsed mtbf startHour endHour loc now r fuel d hparse, hwrap]
  exact ⟨sampleLoop_regimeA_returns_iff _ _ _ _ hA hsec hmax fuel r (now.In loc) [],
    sampleLoop_no_fault _ _ _ _ hsec hmax (by omega) hW.2 _ _ _ _⟩

/-- Claim C19, as stated, fails: with MTBF `1h`, window 8 to 16, built on
Monday 16 April 2018 at 09:00, a source that always draws the offset 0 keeps
the drawn instant at 09:00, which is before `todayEndTime`, so no iteration
budget makes `RandomTimeInRange` return. -/
theorem RandomTimeInRange_zero_draws_never_returns :
    ¬ ∃ (fuel : Nat) (times : List Time),
        RandomTimeInRange "1h".toList 8 16 UTC (Date (civil 2018 4 16) 9 0 0 0 UTC)
          ⟨fun _ => 0⟩ fuel = .ret times := by
  rintro ⟨fuel, times, h⟩
  have hiff := (RandomTimeInRange_regimeA_iff "1h".toList 8 16 UTC
    (Date (civil 2018 4 16) 9 0 0 0 UTC) ⟨fun _ => 0⟩ fuel Hour (by decide) (by decide)).1
  obtain ⟨i, _, _, hstop, _⟩ := hiff.mp ⟨times, h⟩
  rw [drawnInstant_zero_draws _ i _ _ (fun _ => rfl)] at hstop
  revert hstop
  decide

/-- Claim C19, amended. In Regime A, for every randomness source, the sampling
loop of `RandomTimeInRange` terminates exactly when one of the drawn instants
(each the previous drawn instant plus the drawn offset, starting from the
construction time) is not before `todayEndTime`: the call returns a finite
sequence within `fuel` iterations if and only if the first such instant is
among the first `fuel` draws, all earlier drawn instants being before
`todayEndTime`; it never faults, and for a source that always draws 0 while the
construction time is before `todayEndTime` it does not terminate. -/
theorem RandomTimeInRange_regimeA_terminates_iff (mtbf : GoString) (startHour endHour : Int)
    (loc : Location) (now : Time) (r : Rand) (fuel : Nat) (d : Int)
    (hparse : ParseMtbf mtbf = .ret (.ok d))
    (hA : d * 2 < (Date (now.In loc).Date endHour 0 0 0 loc).Sub
      (Date (now.In loc).Date startHour 0 0 0 loc)) :
    ((∃ times, RandomTimeInRange mtbf startHour endHour loc now r fuel = .ret times) ↔
        ∃ i, 1 ≤ i ∧ i ≤ fuel
          ∧ (drawnInstant r (d * 2 / Second) (now.In loc) i).Before
              (Date (now.In loc).Date endHour 0 0 0 loc) = false
          ∧ ∀ j, 1 ≤ j → j < i →
              (drawnInstant r (d * 2 / Second) (now.In loc) j).Before
                (Date (now.In loc).Date endHour 0 0 0 loc) = true)
      ∧ RandomTimeInRange mtbf startHour endHour loc now r fuel ≠ .fault
      ∧ ((∀ j, r.draws j = 0) →
          (now.In loc).Before (Date (now.In loc).Date endHour 0 0 0 loc) = true →
          RandomTimeInRange mtbf startHour endHour loc now r fuel = .timeout) := by
  obtain ⟨hiff, hnf⟩ :=
    RandomTimeInRange_regimeA_iff mtbf startHour endHour loc now r fuel d hparse hA
  refine ⟨hiff, hnf, ?_⟩
  intro hzero hbefore
  cases hres : RandomTimeInRange mtbf startHour endHour loc now r fuel with
  | ret times =>
    obtain ⟨i, _, _, hstop, _⟩ := hiff.mp ⟨times, hres⟩
    rw [drawnInstant_zero_draws _ i _ _ hzero, hbefore] at hstop
    cases hstop
  | fault => exact absurd hres hnf
  | timeout => rfl

theorem RandomTimeInRange_regimeA_terminates_iff_witness :
    (∃ times, RandomTimeInRange "1h".toList 8 16 UTC (Date (civil 2018 4 16) 9 0 0 0 UTC)
        ⟨fun _ => 7000⟩ 10 = .ret times)
      ∧ RandomTimeInRange "1h".toList 8 16 UTC (Date (civil 2018 4 16) 9 0 0 0 UTC)
          ⟨fun _ => 7000⟩ 3 = .timeout
      ∧ RandomTimeInRange "1h".toList 8 16 UTC (Date (civil 2018 4 16) 9 0 0 0 UTC)
          ⟨fun _ => 0⟩ 10 = .timeout :=
  ⟨(RandomTimeInRange_regimeA_terminates_iff "1h".toList 8 16 UTC
      (Date (civil 2018 4 16) 9 0 0 0 UTC) ⟨fun _ => 7000⟩ 10 Hour (by decide) (by decide)).1.mpr
      ⟨4, by decide, by decide, by decide, by decide⟩,
    by decide,
    (RandomTimeInRange_regimeA_terminates_iff "1h".toList 8 16 UTC
      (Date (civil 2018 4 16) 9 0 0 0 UTC) ⟨fun _ => 0⟩ 10 Hour (by decide) (by decide)).2.2
      (fun _ => rfl) (by decide)⟩

/-! ## Claim C20: the next run time is the earliest admissible instant -/

theorem isWeekday_Date (t : Time) :
    isWeekday t = .ret (decide (1 ≤ (t.Date + 4) % 7 ∧ (t.Date + 4) % 7 ≤ 5)) := by
  rw [isWeekday_eq]
  congr 1
  rw [decide_eq_decide]
  unfold Time.Weekday
  omega

theorem isWeekday_true_iff (t : Time) :
    isWeekday t = .ret true ↔ 1 ≤ (t.Date + 4) % 7 ∧ (t.Date + 4) % 7 ≤ 5 := by
  rw [isWeekday_Date]
  constructor
  · intro h
    exact of_decide_eq_true (Outcome.ret.inj h)
  · intro h
    rw [decide_eq_true h]

theorem isWeekday_false_iff (t : Time) :
    isWeekday t = .ret false ↔ ¬ (1 ≤ (t.Date + 4) % 7 ∧ (t.Date + 4) % 7 ≤ 5) := by
  rw [isWeekday_Date]
  constructor
  · intro h
    exact of_decide_eq_false (Outcome.ret.inj h)
  · intro h
    rw [decide_eq_false h]

theorem Date_on_the_hour (date r : Int) (loc : Location) (h0 : 0 ≤ r) (h23 : r ≤ 23) :
    (Date date r 0 0 0 loc).Date = date
      ∧ (Date date r 0 0 0 loc).Clock = (r, 0, 0)
      ∧ (Date date r 0 0 0 loc).Nanosecond = 0
      ∧ (Date date r 0 0 0 loc).unixNano = (date * 86400 + r * 3600 - loc.offset) * 1000000000 := by
  have hls : (Date date r 0 0 0 loc).localSeconds = date * 86400 + r * 3600 := by
    unfold Time.localSeconds Date
    simp only []
    omega
  refine ⟨?_, ?_, ?_, ?_⟩
  · unfold Time.Date
    rw [hls]
    omega
  · unfold Time.Clock
    rw [hls]
    have e1 : (date * 86400 + r * 3600) % 86400 / 3600 = r := by omega
    have e2 : (date * 86400 + r * 3600) % 3600 / 60 = 0 := by omega
    have e3 : (date * 86400 + r * 3600) % 60 = 0 := by omega
    rw [e1, e2, e3]
  · unfold Time.Nanosecond Date
    simp only []
    omega
  · unfold Date
    simp only []
    omega

theorem NextRuntime_eq (loc : Location) (r : Int) (now now2 : Time) (fuel : Nat) (next : Time)
    (hret : nextWeekdayLoop fuel (now2.In loc) = .ret next) :
    NextRuntime loc r now now2 fuel
      = .ret (if isWeekday (now.In loc) = .ret true
            ∧ (now.In loc).Before (Date (now.In loc).Date r 0 0 0 loc) = true
          then Date (now.In loc).Date r 0 0 0 loc
          else Date next.Date r 0 0 0 loc) := by
  unfold NextRuntime
  rw [isWeekday_eq (now.In loc)]
  simp only [nextWeekday, hret, Time.After, Time.Before, Outcome.ret.injEq,
    Bool.and_eq_true, decide_eq_true_eq]
  split <;> rfl

/-- When the two clock readings of `NextRuntime` and `nextWeekday` fall on the
same calendar day: for every run hour `r` from 0 to 23, the loop being allowed
three iterations, `NextRuntime` returns an instant that is strictly after
`now`, falls on a weekday and has wall-clock time exactly `r:00:00`, and no
instant with these three properties is earlier. -/
theorem NextRuntime_earliest_same_day (loc : Location) (r : Int) (now now2 : Time)
    (fuel : Nat) (hfuel : 3 ≤ fuel) (h0 : 0 ≤ r) (h23 : r ≤ 23)
    (hsame : (now2.In loc).Date = (now.In loc).Date) :
    ∃ t, NextRuntime loc r now now2 fuel = .ret t
      ∧ t.After now = true
      ∧ isWeekday t = .ret true
      ∧ t.Clock = (r, 0, 0) ∧ t.Nanosecond = 0
      ∧ ∀ u : Time, (u.In loc).After now = true → isWeekday (u.In loc) = .ret true →
          (u.In loc).Clock = (r, 0, 0) → (u.In loc).Nanosecond = 0 →
          t.unixNano ≤ u.unixNano := by
  obtain ⟨k, hk1, hk3, hret, htrue, hfalse⟩ := nextWeekdayLoop_ret (now2.In loc) fuel hfuel
  have hne := NextRuntime_eq loc r now now2 fuel _ hret
  rw [AddDate_Date, hsame] at hne
  rw [isWeekday_true_iff, AddDate_Date, hsame] at htrue
  have hf1 := hfalse 1 (le_refl _)
  have hf2 := hfalse 2 (by decide)
  rw [isWeekday_false_iff, AddDate_Date, hsame] at hf1 hf2
  have hwd := isWeekday_true_iff (now.In loc)
  obtain ⟨a1, a2, a3, a4⟩ := Date_on_the_hour (now.In loc).Date r loc h0 h23
  obtain ⟨b1, b2, b3, b4⟩ := Date_on_the_hour ((now.In loc).Date + k) r loc h0 h23
  have hnow : (now.In loc).Date = (now.unixNano / 1000000000 + loc.offset) / 86400 := rfl
  have uprops : ∀ u : Time, (u.In loc).After now = true → isWeekday (u.In loc) = .ret true →
      (u.In loc).Clock = (r, 0, 0) → (u.In loc).Nanosecond = 0 →
      now.unixNano < u.unixNano
        ∧ (1 ≤ ((u.unixNano / 1000000000 + loc.offset) / 86400 + 4) % 7
          ∧ ((u.unixNano / 1000000000 + loc.offset) / 86400 + 4) % 7 ≤ 5)
        ∧ u.unixNano
          = ((u.unixNano / 1000000000 + loc.offset) / 86400 * 86400 + r * 3600 - loc.offset)
              * 1000000000 := by
    intro u hafter hweek hclock hnano
    have h1 : now.unixNano < u.unixNano := by
      simpa [Time.After, Time.In] using hafter
    have h2 := (isWeekday_true_iff (u.In loc)).mp hweek
    have h3 : (u.In loc).Date = (u.unixNano / 1000000000 + loc.offset) / 86400 := rfl
    rw [h3] at h2
    unfold Time.Clock Time.localSeconds Time.In at hclock
    simp only [Prod.mk.injEq] at hclock
    unfold Time.Nanosecond Time.In at hnano
    simp only [] at hnano
    refine ⟨h1, h2, ?_⟩
    omega
  by_cases hc : isWeekday (now.In loc) = .ret true
      ∧ (now.In loc).Before (Date (now.In loc).Date r 0 0 0 loc) = true
  · rw [if_pos hc] at hne
    obtain ⟨hc1, hc2⟩ := hc
    have hlt : now.unixNano < (Date (now.In loc).Date r 0 0 0 loc).unixNano := by
      simpa [Time.Before, Time.In] using hc2
    refine ⟨_, hne, ?_, ?_, a2, a3, ?_⟩
    · simpa [Time.After] using hlt
    · rw [isWeekday_true_iff, a1]
      exact hwd.mp hc1
    · intro u hafter hweek hclock hnano
      obtain ⟨u1, u2, u3⟩ := uprops u hafter hweek hclock hnano
      rw [a4]
      rw [a4] at hlt
      omega
  · rw [if_neg hc] at hne
    have hnot : ¬ ((1 ≤ ((now.In loc).Date + 4) % 7 ∧ ((now.In loc).Date + 4) % 7 ≤ 5)
        ∧ now.unixNano < (Date (now.In loc).Date r 0 0 0 loc).unixNano) := by
      intro h
      apply hc
      refine ⟨hwd.mpr h.1, ?_⟩
      simpa [Time.Before, Time.In] using h.2
    rw [a4] at hnot
    refine ⟨_, hne, ?_, ?_, b2, b3, ?_⟩
    · have : now.unixNano < (Date ((now.In loc).Date + k) r 0 0 0 loc).unixNano := by
        rw [b4]
        omega
      simpa [Time.After] using this
    · rw [isWeekday_true_iff, b1]
      exact htrue
    · intro u hafter hweek hclock hnano
      obtain ⟨u1, u2, u3⟩ := uprops u hafter hweek hclock hnano
      rw [b4]
      omega

theorem NextRuntime_earliest_same_day_example :
    ∃ t, NextRuntime UTC 8 (Date (civil 2018 4 20) 9 0 0 0 UTC)
          (Date (civil 2018 4 20) 9 0 0 1 UTC) 3 = .ret t
      ∧ t.After (Date (civil 2018 4 20) 9 0 0 0 UTC) = true
      ∧ isWeekday t = .ret true
      ∧ t.Clock = (8, 0, 0) ∧ t.Nanosecond = 0
      ∧ ∀ u : Time, (u.In UTC).After (Date (civil 2018 4 20) 9 0 0 0 UTC) = true →
          isWeekday (u.In UTC) = .ret true →
          (u.In UTC).Clock = (8, 0, 0) → (u.In UTC).Nanosecond = 0 →
          t.unixNano ≤ u.unixNano :=
  NextRuntime_earliest_same_day UTC 8 (Date (civil 2018 4 20) 9 0 0 0 UTC)
    (Date (civil 2018 4 20) 9 0 0 1 UTC) 3 (by decide) (by decide) (by decide) (by decide)

/-- Claim C20 fails on the code when midnight passes between the two clock
readings.  `NextRuntime` reads the clock on Monday 16 April 2018 at
23:59:59.999999999 and finds today's run at 08:00 missed; `nextWeekday` reads
the clock again, two nanoseconds later, on Tuesday, and advances from there,
so the result is Wednesday 08:00.  Tuesday 08:00 is after both readings, on a
weekday, at exactly 08:00:00, and earlier.  When both readings fall on the
same calendar day the result is the earliest such instant. -/
theorem NextRuntime_midnight_race_skips_a_day :
    NextRuntime UTC 8 (Date (civil 2018 4 16) 23 59 59 999999999 UTC)
        (Date (civil 2018 4 17) 0 0 0 1 UTC) 3
      = .ret (Date (civil 2018 4 18) 8 0 0 0 UTC)
    ∧ (Date (civil 2018 4 17) 8 0 0 0 UTC).After
        (Date (civil 2018 4 16) 23 59 59 999999999 UTC) = true
    ∧ (Date (civil 2018 4 17) 8 0 0 0 UTC).After (Date (civil 2018 4 17) 0 0 0 1 UTC) = true
    ∧ isWeekday (Date (civil 2018 4 17) 8 0 0 0 UTC) = .ret true
    ∧ (Date (civil 2018 4 17) 8 0 0 0 UTC).Clock = (8, 0, 0)
    ∧ (Date (civil 2018 4 17) 8 0 0 0 UTC).Nanosecond = 0
    ∧ (Date (civil 2018 4 17) 8 0 0 0 UTC).Before (Date (civil 2018 4 18) 8 0 0 0 UTC) = true
    ∧ (Date (civil 2018 4 16) 0 0 0 0 UTC).Weekday = 1
    ∧ (Date (civil 2018 4 16) 23 59 59 999999999 UTC).unixNano + 2
        = (Date (civil 2018 4 17) 0 0 0 1 UTC).unixNano
    ∧ (∀ (loc : Location) (r : Int) (now now2 : Time) (fuel : Nat),
        3 ≤ fuel → 0 ≤ r → r ≤ 23 → (now2.In loc).Date = (now.In loc).Date →
        ∃ t, NextRuntime loc r now now2 fuel = .ret t
          ∧ t.After now = true
          ∧ isWeekday t = .ret true
          ∧ t.Clock = (r, 0, 0) ∧ t.Nanosecond = 0
          ∧ ∀ u : Time, (u.In loc).After now = true → isWeekday (u.In loc) = .ret true →
              (u.In loc).Clock = (r, 0, 0) → (u.In loc).Nanosecond = 0 →
              t.unixNano ≤ u.unixNano) := by
  refine ⟨by decide, by decide, by decide, by decide, by decide, by decide, by decide,
    by decide, by decide, ?_⟩
  intro loc r now now2 fuel hfuel h0 h23 hsame
  exact NextRuntime_earliest_same_day loc r now now2 fuel hfuel h0 h23 hsame

end KubeMonkey
